import Mathlib

/-!
Verification of the IlluminatOS scripted-events system (scenario engine).

This file gives a shallow embedding, in Lean, of the parts of the repository
that the checked claims are about:

* src/core/scripted-events/ScenarioManager.js   (orchestrator, getState/setState)
* src/core/scripted-events/ActionExecutor.js    (execute / executeSequence)
* src/core/scripted-events/TriggerEngine.js     (pattern matching, scheduling)
* src/core/scripted-events/SemanticEvents.js    (the ScenarioLoader normalize
  pass is concatenated into that file)

JavaScript objects are modelled by the inductive type JSVal; JS Maps are
modelled as association lists in insertion order (JS Map iteration order);
JS stable Array.prototype.sort with comparator (a, b) => b.priority - a.priority
is modelled by a stable insertion sort (stable sorting is unique, so any stable
sort models it); async/await sequencing is modelled by explicit state passing
plus an observable trace; setTimeout timers are modelled as pending entries in
the state together with explicit expiry steps.  The condition evaluator
(ConditionEvaluator.evaluate) is pure with respect to engine state, so it
enters the model as an explicit function argument, and trigger conditions and
actions are opaque type parameters; regular-expression matching for patterns
of the form "regex:..." is likewise an explicit function argument (no checked
claim depends on a concrete regex).
-/

namespace IlluminatOS

/-- Model of a JavaScript value as stored in the scenario variable map.
Objects are association lists of own properties in insertion order; numbers
are modelled as integers (no claim involves fractional arithmetic). -/
inductive JSVal where
  | null
  | undefined
  | bool (b : Bool)
  | num (n : Int)
  | str (s : String)
  | obj (fields : List (String × JSVal))

/-- Association-list lookup, first binding wins (JS own-property lookup). -/
def alistLookup {α : Type} (l : List (String × α)) (k : String) : Option α :=
  match l with
  | [] => none
  | (k', v) :: rest => if k' = k then some v else alistLookup rest k

/-- Property access current[part]: on an object it is own-property lookup
(missing property gives undefined); on a primitive it gives undefined
(built-in prototype properties are not modelled); it is never invoked on
null/undefined because ScenarioManagerFeature.getState checks first. -/
def getProp (v : JSVal) (k : String) : JSVal :=
  match v with
  | .obj fields => (alistLookup fields k).getD .undefined
  | _ => .undefined

/-- Truth of the JS test (current === null || current === undefined). -/
def isNullish (v : JSVal) : Bool :=
  match v with
  | .null => true
  | .undefined => true
  | _ => false

/-- Helper for splitDot, walking the character list with an accumulator for
the current segment. -/
def splitDotAux : List Char → List Char → List String
  | [], acc => [String.mk acc.reverse]
  | c :: rest, acc =>
      if c = '.' then String.mk acc.reverse :: splitDotAux rest []
      else splitDotAux rest (c :: acc)

/-- JS path.split with separator a single dot and no limit: adjacent dots
yield empty segments, and the empty string yields a single empty segment. -/
def splitDot (s : String) : List String :=
  splitDotAux s.toList []

/-- Loop body of ScenarioManagerFeature.getState (ScenarioManager.js:549-557):
for each path part, return undefined if the current value is null/undefined,
else descend via property access; the final value is returned unchecked. -/
def walkPath (v : JSVal) (parts : List String) : JSVal :=
  match parts with
  | [] => v
  | part :: rest =>
      if isNullish v then .undefined else walkPath (getProp v part) rest

/-- ScenarioManagerFeature.getState (ScenarioManager.js:546-558).  The path
argument is optional; a missing path and the empty string are both falsy in
JS, so both return the whole variable map. -/
def getState (state : JSVal) (path : Option String) : JSVal :=
  match path with
  | none => state
  | some p => if p = "" then state else walkPath state (splitDot p)

theorem walkPath_append (v : JSVal) (xs ys : List String) :
    walkPath v (xs ++ ys) = walkPath (walkPath v xs) ys := by
  induction xs generalizing v with
  | nil => rfl
  | cons x xs ih =>
      simp only [List.cons_append, walkPath]
      by_cases h : isNullish v
      · simp only [h, if_pos]
        cases ys with
        | nil => rfl
        | cons y ys => simp [walkPath, isNullish]
      · simp [h, ih]

theorem walkPath_nullish_ne_nil (v : JSVal) (parts : List String)
    (hv : isNullish v = true) (hne : parts ≠ []) :
    walkPath v parts = .undefined := by
  cases parts with
  | nil => exact absurd rfl hne
  | cons p rest => simp [walkPath, hv]

/-- C10: ScenarioManager.getState is total: for every dot-separated path
string, if any intermediate segment of the path resolves to null or undefined
in the variable map, getState returns undefined rather than throwing; and
getState with no path argument returns the entire variable map.  Totality is
by construction: walkPath checks for null/undefined before every property
access, which are the only accesses that can throw in the source loop. -/
theorem C10_getState_total (state : JSVal) (p : String) (i : Nat)
    (hi1 : 1 ≤ i) (hi2 : i < (splitDot p).length)
    (hnull : isNullish (walkPath state ((splitDot p).take i)) = true) :
    getState state (some p) = .undefined ∧ ∀ s : JSVal, getState s none = s := by
  constructor
  · have hp : p ≠ "" := by
      intro h
      subst h
      have : (splitDot "").length = 1 := by decide
      omega
    have hsplit : splitDot p =
        (splitDot p).take i ++ (splitDot p).drop i :=
      (List.take_append_drop i (splitDot p)).symm
    have hdrop : (splitDot p).drop i ≠ [] := by
      intro h
      have := List.drop_eq_nil_iff.mp h
      omega
    simp only [getState, if_neg hp]
    rw [hsplit, walkPath_append]
    exact walkPath_nullish_ne_nil _ _ hnull hdrop
  · intro s
    rfl

/-- Witness for C10 at a concrete input: the variable map has a at null, and
the path a.b passes through it, so getState returns undefined. -/
theorem C10_getState_total_witness :
    getState (JSVal.obj [("a", JSVal.null)]) (some "a.b") = JSVal.undefined ∧
      getState (JSVal.obj []) none = JSVal.obj [] := by
  refine ⟨(C10_getState_total (JSVal.obj [("a", JSVal.null)]) "a.b" 1
    (by decide) (by decide) ?_).1,
    (C10_getState_total (JSVal.obj [("a", JSVal.null)]) "a.b" 1
    (by decide) (by decide) ?_).2 (JSVal.obj [])⟩ <;> rfl

/-! ## ActionExecutor (src/core/scripted-events/ActionExecutor.js)

Action handlers are functions (params, context) to a result; a throwing
handler is modelled as returning Except.error with the error message.  The
handler registries (the module-level customActions map and the built-in
actionHandlers table) are explicit arguments; parameter payloads, result
values and the non-flag part of the context are opaque type parameters.
Lifecycle notifications (emitScenarioEvent calls) do not affect the executor
state and are omitted here. -/

/-- Execution context as consulted by executeSequence: only the stopOnFailure
flag is inspected by the executor itself; everything else is passed through
to handlers opaquely. -/
structure ExecCtx (C : Type) where
  stopOnFailure : Bool
  env : C

/-- Argument of execute: a JS value that is either not a non-null object
(rejected as Invalid action), or an object with an optional type field and a
params remainder. -/
inductive ActVal (P : Type) where
  | invalid
  | obj (typ : Option String) (params : P)

/-- Result shape of execute: either success with result or failure with
error, mirroring the object literals returned from ActionExecutor.execute. -/
inductive ExecResult (V : Type) where
  | success (result : V)
  | failure (error : String)
deriving DecidableEq

/-- Truth of result.success. -/
def ExecResult.isSuccess {V : Type} : ExecResult V → Bool
  | .success _ => true
  | .failure _ => false

/-- ActionExecutor.execute (ActionExecutor.js:55-110): invalid or untyped
actions fail with a fixed message; otherwise the custom registry is consulted
first, then the built-in table; a missing handler throws
"Unknown action type: " followed by the type, and the try/catch converts any
thrown error into a failure result. -/
def execute {P C V : Type}
    (custom : List (String × (P → ExecCtx C → Except String V)))
    (builtin : String → Option (P → ExecCtx C → Except String V))
    (a : ActVal P) (ctx : ExecCtx C) : ExecResult V :=
  match a with
  | .invalid => .failure "Invalid action"
  | .obj none _ => .failure "Action type not specified"
  | .obj (some t) p =>
      let attempt : Except String V :=
        match alistLookup custom t with
        | some h => h p ctx
        | none =>
            match builtin t with
            | some h => h p ctx
            | none => .error ("Unknown action type: " ++ t)
      match attempt with
      | .ok v => .success v
      | .error e => .failure e

/-- ActionExecutor.executeSequence (ActionExecutor.js:118-134): run the
actions in order, collecting results; after a failed action, stop early
exactly when context.stopOnFailure is set. -/
def executeSequence {P C V : Type}
    (custom : List (String × (P → ExecCtx C → Except String V)))
    (builtin : String → Option (P → ExecCtx C → Except String V))
    (as : List (ActVal P)) (ctx : ExecCtx C) : List (ExecResult V) :=
  match as with
  | [] => []
  | a :: rest =>
      let r := execute custom builtin a ctx
      if ¬r.isSuccess ∧ ctx.stopOnFailure then [r]
      else r :: executeSequence custom builtin rest ctx

/-- C4 as frozen is falsified by the error message: an action whose type has
no registered handler fails with "Unknown action type: " followed by the
type (the thrown message at ActionExecutor.js:83), not with the bare string
"Unknown action type". -/
theorem C4_counterexample :
    execute ([] : List (String × (Unit → ExecCtx Unit → Except String Unit)))
        (fun _ => none) (.obj (some "frobnicate") ()) ⟨false, ()⟩ =
      .failure "Unknown action type: frobnicate" ∧
    (ExecResult.failure "Unknown action type: frobnicate" : ExecResult Unit) ≠
      .failure "Unknown action type" :=
  ⟨rfl, by decide⟩

/-- C4 (amended): execute never throws past its boundary (it is total into
ExecResult by construction); a handler exception yields the failure result
carrying the handler's message; an action whose type has no registered
handler yields the failure result with error "Unknown action type: " followed
by the type; and executeSequence runs every action past a failure unless
context.stopOnFailure is set, in which case the remaining actions are
skipped. -/
theorem C4_execute_error_handling {P C V : Type}
    (custom : List (String × (P → ExecCtx C → Except String V)))
    (builtin : String → Option (P → ExecCtx C → Except String V)) :
    (∀ (t : String) (p : P) (ctx : ExecCtx C) (h : P → ExecCtx C → Except String V)
        (m : String), alistLookup custom t = some h → h p ctx = .error m →
        execute custom builtin (.obj (some t) p) ctx = .failure m) ∧
    (∀ (t : String) (p : P) (ctx : ExecCtx C) (h : P → ExecCtx C → Except String V)
        (m : String), alistLookup custom t = none → builtin t = some h →
        h p ctx = .error m →
        execute custom builtin (.obj (some t) p) ctx = .failure m) ∧
    (∀ (t : String) (p : P) (ctx : ExecCtx C),
        alistLookup custom t = none → builtin t = none →
        execute custom builtin (.obj (some t) p) ctx =
          .failure ("Unknown action type: " ++ t)) ∧
    (∀ (as : List (ActVal P)) (ctx : ExecCtx C), ctx.stopOnFailure = false →
        executeSequence custom builtin as ctx =
          as.map (fun a => execute custom builtin a ctx)) ∧
    (∀ (xs ys : List (ActVal P)) (a : ActVal P) (ctx : ExecCtx C),
        ctx.stopOnFailure = true →
        (∀ x ∈ xs, (execute custom builtin x ctx).isSuccess = true) →
        (execute custom builtin a ctx).isSuccess = false →
        executeSequence custom builtin (xs ++ a :: ys) ctx =
          xs.map (fun x => execute custom builtin x ctx) ++
            [execute custom builtin a ctx]) := by
  refine ⟨?_, ?_, ?_, ?_, ?_⟩
  · intro t p ctx h m hl he
    simp [execute, hl, he]
  · intro t p ctx h m hl hb he
    simp [execute, hl, hb, he]
  · intro t p ctx hl hb
    simp [execute, hl, hb]
  · intro as ctx hstop
    induction as with
    | nil => rfl
    | cons a rest ih => simp [executeSequence, hstop, ih]
  · intro xs ys a ctx hstop hok hfail
    induction xs with
    | nil => simp [executeSequence, hstop, hfail]
    | cons x xs ih =>
        have hx := hok x (by simp)
        have ih' := ih (fun y hy => hok y (by simp [hy]))
        simp only [List.cons_append, executeSequence, hx, hstop,
          List.append_eq, ih']
        simp [hx]

/-- Witness for C4 at concrete inputs: a throwing custom handler is converted
to a failure result, an unknown type fails with the prefixed message, and a
stop-on-failure sequence of one failing then one unknown action skips the
second action. -/
theorem C4_execute_error_handling_witness :
    execute [("boom", fun (_ : Unit) (_ : ExecCtx Unit) =>
        (Except.error "kaput" : Except String Unit))] (fun _ => none)
      (.obj (some "boom") ()) ⟨true, ()⟩ = .failure "kaput" ∧
    executeSequence [("boom", fun (_ : Unit) (_ : ExecCtx Unit) =>
        (Except.error "kaput" : Except String Unit))] (fun _ => none)
      ([.obj (some "boom") (), .obj (some "lost") ()]) ⟨true, ()⟩ =
      [.failure "kaput"] := by
  have h := C4_execute_error_handling
    [("boom", fun (_ : Unit) (_ : ExecCtx Unit) =>
      (Except.error "kaput" : Except String Unit))] (fun _ => none)
  refine ⟨h.1 "boom" () ⟨true, ()⟩ _ "kaput" (by rfl) (by rfl), ?_⟩
  have h5 := h.2.2.2.2 [] [.obj (some "lost") ()] (.obj (some "boom") ())
    ⟨true, ()⟩ rfl (by intro x hx; cases hx) (by rfl)
  simpa using h5

/-! ## TriggerEngine (src/core/scripted-events/TriggerEngine.js)

The engine is modelled as a record of its instance fields; the types of
trigger conditions (evaluated only through ConditionEvaluator.evaluate),
trigger actions (executed only through ActionExecutor.executeSequence) and
event payloads are opaque parameters.  The observable behaviour of one
engine step is a trace: a handled marker per handleEvent invocation, a fired
notification per trigger firing, and one action entry per executed action of
the fired trigger's list, in order.  setTimeout debounce timers are pending
map entries fired by an explicit expiry step. -/

/-- Entry of the eventHistory ring buffer (TriggerEngine.js:366-370). -/
structure HistEntry (Data : Type) where
  event : String
  data : Data
  timestamp : Nat
deriving DecidableEq

/-- Normalized trigger definition as built in TriggerEngine.registerTrigger
(TriggerEngine.js:222-233). -/
structure Trigger (Cond Act : Type) where
  id : String
  event : Option String
  events : List String
  conditions : Option Cond
  actions : List Act
  once : Bool
  priority : Int
  debounce : Nat
  enabled : Bool
  stageId : Option String
deriving DecidableEq

/-- Raw trigger object before the destructuring defaults of registerTrigger
(TriggerEngine.js:209-220) are applied; a missing field is none.  A single
non-array actions value is modelled as a one-element list (the source wraps
it in an array). -/
structure RawTrigger (Cond Act : Type) where
  id : Option String := none
  event : Option String := none
  events : Option (List String) := none
  conditions : Option Cond := none
  actions : Option (List Act) := none
  once : Option Bool := none
  priority : Option Int := none
  debounce : Option Nat := none
  enabled : Option Bool := none
  stageId : Option String := none

/-- Destructuring defaults of registerTrigger (TriggerEngine.js:209-233);
fresh stands for the generated trigger-id (Date.now plus random suffix). -/
def mkTriggerDef {Cond Act : Type} (fresh : String) (r : RawTrigger Cond Act) :
    Trigger Cond Act :=
  { id := r.id.getD fresh
    event := r.event
    events := r.events.getD (match r.event with | some e => [e] | none => [])
    conditions := r.conditions
    actions := r.actions.getD []
    once := r.once.getD false
    priority := r.priority.getD 0
    debounce := r.debounce.getD 0
    enabled := r.enabled.getD true
    stageId := r.stageId }

/-- Evaluation context built in TriggerEngine.handleEvent
(TriggerEngine.js:346-351): the event (name and payload), the engine's event
history and counts, and the scenario part of this.context, of which the
engine only consults currentStageId. -/
structure EvalCtx (Data : Type) where
  eventName : String
  data : Data
  history : List (HistEntry Data)
  counts : List (String × Nat)
  currentStageId : Option String

/-- State of one TriggerEngine instance (constructor fields,
TriggerEngine.js:25-53).  triggers is the pattern-indexed Map in insertion
order; subscriptions records the exact event names for which an EventBus.on
subscription was installed; debounceTimers holds the pending setTimeout
closures (trigger and captured context) keyed by trigger id; currentStageId
models this.context.scenario?.currentStageId. -/
structure EngineState (Cond Act Data : Type) where
  triggers : List (String × List (Trigger Cond Act))
  globalTriggers : List (Trigger Cond Act)
  subscriptions : List String
  firedTriggers : List String
  eventHistory : List (HistEntry Data)
  eventCounts : List (String × Nat)
  debounceTimers : List (String × (Trigger Cond Act × EvalCtx Data))
  active : Bool
  currentStageId : Option String

/-- Buffer capacity this.maxHistoryLength (TriggerEngine.js:43). -/
def maxHistoryLength : Nat := 100

/-- TriggerEngine constructor (TriggerEngine.js:25-53). -/
def TriggerEngine.init {Cond Act Data : Type} (currentStageId : Option String) :
    EngineState Cond Act Data :=
  { triggers := []
    globalTriggers := []
    subscriptions := []
    firedTriggers := []
    eventHistory := []
    eventCounts := []
    debounceTimers := []
    active := false
    currentStageId := currentStageId }

/-- TriggerEngine.start (TriggerEngine.js:58-80): set active and install the
EventBus.emit wrapper; the wrapper's presence is equated with active, which
is faithful because start installs it exactly when flipping active and stop
removes it when clearing active. -/
def engineStart {Cond Act Data : Type} (st : EngineState Cond Act Data) :
    EngineState Cond Act Data :=
  if st.active then st else { st with active := true }

/-- TriggerEngine.stop (TriggerEngine.js:85-110): drop the wrapper,
unsubscribe every per-pattern subscription, cancel pending debounce timers
and clear triggers, fired bookkeeping, history and counts.  this.context
(and hence currentStageId) is untouched. -/
def engineStop {Cond Act Data : Type} (st : EngineState Cond Act Data) :
    EngineState Cond Act Data :=
  { st with
    active := false
    subscriptions := []
    debounceTimers := []
    triggers := []
    globalTriggers := []
    firedTriggers := []
    eventHistory := []
    eventCounts := [] }

/-- Association-list update with JS Map.set semantics: an existing key keeps
its position, a new key is appended. -/
def alistSet {α : Type} (l : List (String × α)) (k : String) (v : α) :
    List (String × α) :=
  match l with
  | [] => [(k, v)]
  | (k', v') :: rest =>
      if k' = k then (k', v) :: rest else (k', v') :: alistSet rest k v

/-- Association-list removal (JS Map.delete). -/
def alistRemove {α : Type} (l : List (String × α)) (k : String) :
    List (String × α) :=
  match l with
  | [] => []
  | (k', v') :: rest =>
      if k' = k then rest else (k', v') :: alistRemove rest k

/-- JS Object increment this.eventCounts[name] = (this.eventCounts[name] || 0) + 1
(TriggerEngine.js:378): an existing property keeps its position. -/
def bumpCount (l : List (String × Nat)) (k : String) : List (String × Nat) :=
  match l with
  | [] => [(k, 1)]
  | (k', n) :: rest =>
      if k' = k then (k', n + 1) :: rest else (k', n) :: bumpCount rest k

/-- TriggerEngine.trackEvent (TriggerEngine.js:364-379): push the event onto
the history, evict the oldest entry when the capacity is exceeded, and bump
the per-name counter. -/
def trackEvent {Cond Act Data : Type} (st : EngineState Cond Act Data)
    (eventName : String) (data : Data) (now : Nat) :
    EngineState Cond Act Data :=
  let hist := st.eventHistory ++ [⟨eventName, data, now⟩]
  let hist := if maxHistoryLength < hist.length then hist.drop 1 else hist
  { st with
    eventHistory := hist
    eventCounts := bumpCount st.eventCounts eventName }

/-- JS String.prototype.startsWith, on the character lists (the Lean String
primitives do not reduce in the kernel, so the model works on toList). -/
def strStartsWith (s pre : String) : Bool :=
  pre.toList.isPrefixOf s.toList

/-- JS String.prototype.endsWith. -/
def strEndsWith (s suf : String) : Bool :=
  suf.toList.isSuffixOf s.toList

/-- JS String.prototype.slice(n) for a nonnegative index. -/
def strDrop (s : String) (n : Nat) : String :=
  String.mk (s.toList.drop n)

/-- JS pattern.includes with a star argument. -/
def hasStar (s : String) : Bool :=
  s.toList.contains '*'

/-- Split a pattern at its stars; segments between stars are literal because
matchesPattern escapes every other regex metacharacter
(TriggerEngine.js:438-440). -/
def splitStarAux : List Char → List Char → List (List Char)
  | [], acc => [acc.reverse]
  | c :: rest, acc =>
      if c = '*' then acc.reverse :: splitStarAux rest []
      else splitStarAux rest (c :: acc)

/-- Remainder of hay after the first occurrence of needle, if any. -/
def dropAfterOcc (needle : List Char) : List Char → Option (List Char)
  | [] => if needle.isEmpty then some [] else none
  | c :: rest =>
      if needle.isPrefixOf (c :: rest) then some ((c :: rest).drop needle.length)
      else dropAfterOcc needle rest

/-- Match the tail segments of a star pattern against the remaining
characters: each middle segment is searched leftmost-first, and the final
segment must be a suffix (the regex is anchored with a dollar). -/
def globSegs : List (List Char) → List Char → Bool
  | [], cs => cs.isEmpty
  | [p], cs => p.isSuffixOf cs
  | p :: rest, cs =>
      match dropAfterOcc p cs with
      | some cs' => globSegs rest cs'
      | none => false

/-- Wildcard branch of TriggerEngine.matchesPattern (TriggerEngine.js:437-443):
the pattern is turned into an anchored regex in which every star becomes
dot-star and every other character is escaped to a literal; this is exactly
glob matching over the star-separated literal segments (first segment
anchored at the start, last at the end, middles found in order). -/
def globMatch (eventName pattern : String) : Bool :=
  match splitStarAux pattern.toList [] with
  | [] => eventName.toList.isEmpty
  | p :: rest =>
      if rest.isEmpty then p == eventName.toList
      else p.isPrefixOf eventName.toList &&
        globSegs rest (eventName.toList.drop p.length)

/-- TriggerEngine.matchesPattern (TriggerEngine.js:425-449) with the two
module-level built-in custom matchers (TriggerEngine.js:621-637): a pattern
with the regex: scheme defers to JS RegExp matching, which enters the model
as the function argument rm; the sequence: matcher always returns false;
then exact match, then wildcard, then the prefix-with-colon rule. -/
def matchesPattern (rm : String → String → Bool)
    (eventName pattern : String) : Bool :=
  if strStartsWith pattern "regex:" then rm eventName (strDrop pattern 6)
  else if strStartsWith pattern "sequence:" then false
  else if pattern == eventName then true
  else if hasStar pattern then globMatch eventName pattern
  else strStartsWith eventName (pattern ++ ":")

/-- Insert into a priority-descending list, after every strictly higher
priority element and before equal ones; iterated insertion is the unique
stable priority-descending sort and therefore models the (stable, ES2019)
JS Array.prototype.sort with comparator (a, b) => b.priority - a.priority. -/
def insertByPriority {Cond Act : Type} (t : Trigger Cond Act) :
    List (Trigger Cond Act) → List (Trigger Cond Act)
  | [] => [t]
  | u :: rest =>
      if t.priority < u.priority then u :: insertByPriority t rest
      else t :: u :: rest

/-- Stable sort by descending numeric priority (TriggerEngine.js:242, 260,
414). -/
def sortByPriorityDesc {Cond Act : Type} :
    List (Trigger Cond Act) → List (Trigger Cond Act)
  | [] => []
  | t :: rest => insertByPriority t (sortByPriorityDesc rest)

/-- Stage filter of findMatchingTriggers (TriggerEngine.js:407-409): a
trigger with a (truthy) stageId survives only when it equals the current
stage id from the engine context. -/
def stageOk {Cond Act : Type} (t : Trigger Cond Act)
    (cur : Option String) : Bool :=
  match t.stageId with
  | none => true
  | some sid => some sid == cur

/-- TriggerEngine.findMatchingTriggers (TriggerEngine.js:386-417): exact
pattern matches first, then in map insertion order every other pattern that
matches, then all global triggers; filter by enabled and stage; finally the
stable sort by descending priority. -/
def findMatchingTriggers {Cond Act Data : Type} (rm : String → String → Bool)
    (st : EngineState Cond Act Data) (eventName : String) :
    List (Trigger Cond Act) :=
  let exact := (alistLookup st.triggers eventName).getD []
  let wild := (st.triggers.filter
    (fun pr => pr.1 ≠ eventName ∧ matchesPattern rm eventName pr.1)).flatMap
    (fun pr => pr.2)
  let ms := exact ++ wild ++ st.globalTriggers
  let filtered := ms.filter (fun t => t.enabled && stageOk t st.currentStageId)
  sortByPriorityDesc filtered

/-- Condition gate of TriggerEngine.processTrigger (TriggerEngine.js:468-478):
a trigger with no conditions passes; otherwise ConditionEvaluator.evaluate
decides, entering the model as the function argument evalC. -/
def condHolds {Cond Act Data : Type} (evalC : Cond → EvalCtx Data → Bool)
    (t : Trigger Cond Act) (ctx : EvalCtx Data) : Bool :=
  match t.conditions with
  | none => true
  | some c => evalC c ctx

/-- Observable trace event of the engine: a handleEvent invocation, a
trigger-fired notification (emitScenarioEvent of scenario:trigger:fired,
TriggerEngine.js:516-520), or the execution of one action of a fired
trigger's list. -/
inductive TraceEv (Act : Type) where
  | handled (event : String)
  | fired (triggerId : String)
  | action (triggerId : String) (a : Act)
deriving DecidableEq

/-- TriggerEngine.fireTrigger (TriggerEngine.js:503-533): mark a once trigger
as consumed, emit the fired notification, then run the action list in order
through ActionExecutor.executeSequence. -/
def fireTrigger {Cond Act Data : Type} (t : Trigger Cond Act)
    (st : EngineState Cond Act Data) :
    EngineState Cond Act Data × List (TraceEv Act) :=
  let st' :=
    if t.once then
      if st.firedTriggers.contains t.id then st
      else { st with firedTriggers := st.firedTriggers ++ [t.id] }
    else st
  (st', .fired t.id :: t.actions.map (fun a => .action t.id a))

/-- TriggerEngine.processTrigger (TriggerEngine.js:456-496): skip a fired
once trigger; skip when the conditions fail; with positive debounce,
(re)schedule the pending timer keyed by trigger id; otherwise fire now. -/
def processTrigger {Cond Act Data : Type} (evalC : Cond → EvalCtx Data → Bool)
    (t : Trigger Cond Act) (ctx : EvalCtx Data)
    (st : EngineState Cond Act Data) :
    EngineState Cond Act Data × List (TraceEv Act) :=
  if t.once && st.firedTriggers.contains t.id then (st, [])
  else if !condHolds evalC t ctx then (st, [])
  else if 0 < t.debounce then
    ({ st with debounceTimers := alistSet st.debounceTimers t.id (t, ctx) }, [])
  else fireTrigger t st

/-- Sequential processing loop of handleEvent (TriggerEngine.js:354-356):
each candidate trigger's processing, including its whole action sequence,
completes before the next candidate is processed. -/
def processTriggers {Cond Act Data : Type} (evalC : Cond → EvalCtx Data → Bool)
    (ts : List (Trigger Cond Act)) (ctx : EvalCtx Data)
    (st : EngineState Cond Act Data) :
    EngineState Cond Act Data × List (TraceEv Act) :=
  match ts with
  | [] => (st, [])
  | t :: rest =>
      let p := processTrigger evalC t ctx st
      let q := processTriggers evalC rest ctx p.1
      (q.1, p.2 ++ q.2)

/-- Context construction of handleEvent (TriggerEngine.js:346-351). -/
def mkCtx {Cond Act Data : Type} (st : EngineState Cond Act Data)
    (eventName : String) (data : Data) : EvalCtx Data :=
  ⟨eventName, data, st.eventHistory, st.eventCounts, st.currentStageId⟩

/-- TriggerEngine.handleEvent (TriggerEngine.js:328-357): track the event,
compute the matching triggers, build the evaluation context, and process the
candidates in order.  The leading handled trace marker records the
invocation itself. -/
def handleEvent {Cond Act Data : Type} (rm : String → String → Bool)
    (evalC : Cond → EvalCtx Data → Bool) (st : EngineState Cond Act Data)
    (eventName : String) (data : Data) (now : Nat) :
    EngineState Cond Act Data × List (TraceEv Act) :=
  let st1 := trackEvent st eventName data now
  let ts := findMatchingTriggers rm st1 eventName
  let ctx := mkCtx st1 eventName data
  let p := processTriggers evalC ts ctx st1
  (p.1, .handled eventName :: p.2)

/-- Expiry of a pending debounce timer (the setTimeout callback at
TriggerEngine.js:486-489): remove the pending entry, then fire with the
captured context. -/
def expireTimer {Cond Act Data : Type} (st : EngineState Cond Act Data)
    (id : String) : EngineState Cond Act Data × List (TraceEv Act) :=
  match alistLookup st.debounceTimers id with
  | none => (st, [])
  | some e =>
      fireTrigger e.1 { st with debounceTimers := alistRemove st.debounceTimers id }

/-- Pattern registration loop body of registerTrigger
(TriggerEngine.js:238-262): a literal star goes to the global list (kept
priority sorted); otherwise the pattern's bucket is created on first use —
subscribing via EventBus.on exactly when the pattern has no star and the
engine is already active — and the trigger is pushed and the bucket
re-sorted by priority. -/
def registerPattern {Cond Act Data : Type} (t : Trigger Cond Act)
    (st : EngineState Cond Act Data) (pattern : String) :
    EngineState Cond Act Data :=
  if pattern = "*" then
    { st with globalTriggers := sortByPriorityDesc (st.globalTriggers ++ [t]) }
  else
    match alistLookup st.triggers pattern with
    | some lst =>
        let bucket := sortByPriorityDesc (lst ++ [t])
        { st with triggers := alistSet st.triggers pattern bucket }
    | none =>
        { st with
          triggers := st.triggers ++ [(pattern, sortByPriorityDesc [t])]
          subscriptions :=
            if !hasStar pattern && st.active then st.subscriptions ++ [pattern]
            else st.subscriptions }

/-- TriggerEngine.registerTrigger after the destructuring defaults
(TriggerEngine.js:236-262): register under each event pattern, or under the
literal star when the events list is empty.  Validation
(TriggerEngine.validateTrigger) only logs warnings and never rejects, so it
has no state effect and is not modelled. -/
def registerDef {Cond Act Data : Type} (t : Trigger Cond Act)
    (st : EngineState Cond Act Data) : EngineState Cond Act Data :=
  let eventPatterns := if t.events.isEmpty then ["*"] else t.events
  eventPatterns.foldl (registerPattern t) st

/-- TriggerEngine.registerTrigger on a raw definition
(TriggerEngine.js:201-265): apply the destructuring defaults, then register. -/
def registerTrigger {Cond Act Data : Type} (fresh : String)
    (raw : RawTrigger Cond Act) (st : EngineState Cond Act Data) :
    EngineState Cond Act Data :=
  registerDef (mkTriggerDef fresh raw) st

/-- TriggerEngine.registerTriggers (TriggerEngine.js:272-274). -/
def registerDefs {Cond Act Data : Type} (ts : List (Trigger Cond Act))
    (st : EngineState Cond Act Data) : EngineState Cond Act Data :=
  ts.foldl (fun st t => registerDef t st) st

/-- TriggerEngine.clearStage (TriggerEngine.js:575-584): drop every trigger
whose stageId equals the given stage from every pattern bucket and from the
global list. -/
def clearStage {Cond Act Data : Type} (stageId : String)
    (st : EngineState Cond Act Data) : EngineState Cond Act Data :=
  { st with
    triggers := st.triggers.map
      (fun pr => (pr.1, pr.2.filter (fun t => t.stageId != some stageId)))
    globalTriggers :=
      st.globalTriggers.filter (fun t => t.stageId != some stageId) }

/-- TriggerEngine.reset (TriggerEngine.js:538-544). -/
def resetEngine {Cond Act Data : Type} (st : EngineState Cond Act Data) :
    EngineState Cond Act Data :=
  { st with
    firedTriggers := []
    eventHistory := []
    eventCounts := []
    debounceTimers := [] }

/-- Modelled from the spec: the shared Event Bus (src/core/EventBus.js is not
among the provided sources) offers publish and subscribe-by-name, and
emitting an event synchronously invokes, in registration order, every
handler subscribed to exactly that event name (spec section 6).  With the
engine's wrapper installed (TriggerEngine.js:71-79), a publication first
runs the original emit — which invokes the per-pattern handlers installed by
registerTrigger (TriggerEngine.js:249-253), each calling handleEvent after
re-checking active — and then the wrapper itself calls handleEvent once when
the engine is active and the event name does not start with
scenario:action: (the loop-prevention exclusion). -/
def publishEvent {Cond Act Data : Type} (rm : String → String → Bool)
    (evalC : Cond → EvalCtx Data → Bool) (st : EngineState Cond Act Data)
    (eventName : String) (data : Data) (now : Nat) :
    EngineState Cond Act Data × List (TraceEv Act) :=
  let subs := st.subscriptions.filter (fun p => p == eventName)
  let viaSubs := subs.foldl
    (fun acc _ =>
      if acc.1.active then
        let h := handleEvent rm evalC acc.1 eventName data now
        (h.1, acc.2 ++ h.2)
      else acc)
    (st, ([] : List (TraceEv Act)))
  if viaSubs.1.active && !strStartsWith eventName "scenario:action:" then
    let h := handleEvent rm evalC viaSubs.1 eventName data now
    (h.1, viaSubs.2 ++ h.2)
  else viaSubs

/-- One step of a running engine: either a publication on the Event Bus or
the expiry of a pending debounce timer. -/
inductive EngineStep (Data : Type) where
  | publish (eventName : String) (data : Data) (now : Nat)
  | expire (id : String)

/-- Run a sequence of engine steps, accumulating the trace. -/
def runEngine {Cond Act Data : Type} (rm : String → String → Bool)
    (evalC : Cond → EvalCtx Data → Bool) (steps : List (EngineStep Data))
    (st : EngineState Cond Act Data) :
    EngineState Cond Act Data × List (TraceEv Act) :=
  match steps with
  | [] => (st, [])
  | step :: rest =>
      let p := match step with
        | .publish e d n => publishEvent rm evalC st e d n
        | .expire id => expireTimer st id
      let q := runEngine rm evalC rest p.1
      (q.1, p.2 ++ q.2)

/-- Trace classifiers: a handleEvent invocation marker. -/
def isHandledEv {Act : Type} : TraceEv Act → Bool
  | .handled _ => true
  | _ => false

/-- Number of handleEvent invocations recorded in a trace. -/
def countHandled {Act : Type} (tr : List (TraceEv Act)) : Nat :=
  tr.countP isHandledEv

/-- Trace classifier: fired notification of the trigger with the given id. -/
def isFiredOf {Act : Type} (I : String) : TraceEv Act → Bool
  | .fired i => i == I
  | _ => false

/-- Trace classifier: action execution of the trigger with the given id. -/
def isActionOf {Act : Type} (I : String) : TraceEv Act → Bool
  | .action i _ => i == I
  | _ => false

/-- Trace classifier: any event attributed to the trigger with the given id. -/
def isTagOf {Act : Type} (I : String) : TraceEv Act → Bool
  | .handled _ => false
  | .fired i => i == I
  | .action i _ => i == I

theorem fireTrigger_active {Cond Act Data : Type} (t : Trigger Cond Act)
    (st : EngineState Cond Act Data) :
    (fireTrigger t st).1.active = st.active := by
  unfold fireTrigger
  dsimp only
  split <;> [skip; rfl]
  split <;> rfl

theorem fireTrigger_history {Cond Act Data : Type} (t : Trigger Cond Act)
    (st : EngineState Cond Act Data) :
    (fireTrigger t st).1.eventHistory = st.eventHistory := by
  unfold fireTrigger
  dsimp only
  split <;> [skip; rfl]
  split <;> rfl

theorem fireTrigger_no_handled {Cond Act Data : Type} (t : Trigger Cond Act)
    (st : EngineState Cond Act Data) :
    countHandled (fireTrigger t st).2 = 0 := by
  unfold fireTrigger countHandled
  dsimp only
  rw [List.countP_cons_of_neg _ _ (by simp [isHandledEv])]
  rw [List.countP_eq_zero]
  intro e he
  obtain ⟨a, _, rfl⟩ := List.mem_map.mp he
  simp [isHandledEv]

theorem processTrigger_active {Cond Act Data : Type}
    (evalC : Cond → EvalCtx Data → Bool) (t : Trigger Cond Act)
    (ctx : EvalCtx Data) (st : EngineState Cond Act Data) :
    (processTrigger evalC t ctx st).1.active = st.active := by
  unfold processTrigger
  split
  · rfl
  split
  · rfl
  split
  · rfl
  · exact fireTrigger_active t st

theorem processTrigger_history {Cond Act Data : Type}
    (evalC : Cond → EvalCtx Data → Bool) (t : Trigger Cond Act)
    (ctx : EvalCtx Data) (st : EngineState Cond Act Data) :
    (processTrigger evalC t ctx st).1.eventHistory = st.eventHistory := by
  unfold processTrigger
  split
  · rfl
  split
  · rfl
  split
  · rfl
  · exact fireTrigger_history t st

theorem processTrigger_no_handled {Cond Act Data : Type}
    (evalC : Cond → EvalCtx Data → Bool) (t : Trigger Cond Act)
    (ctx : EvalCtx Data) (st : EngineState Cond Act Data) :
    countHandled (processTrigger evalC t ctx st).2 = 0 := by
  unfold processTrigger
  split
  · rfl
  split
  · rfl
  split
  · rfl
  · exact fireTrigger_no_handled t st

theorem processTriggers_active {Cond Act Data : Type}
    (evalC : Cond → EvalCtx Data → Bool) (ts : List (Trigger Cond Act))
    (ctx : EvalCtx Data) (st : EngineState Cond Act Data) :
    (processTriggers evalC ts ctx st).1.active = st.active := by
  induction ts generalizing st with
  | nil => rfl
  | cons t rest ih =>
      unfold processTriggers
      dsimp only
      rw [ih, processTrigger_active]

theorem processTriggers_history {Cond Act Data : Type}
    (evalC : Cond → EvalCtx Data → Bool) (ts : List (Trigger Cond Act))
    (ctx : EvalCtx Data) (st : EngineState Cond Act Data) :
    (processTriggers evalC ts ctx st).1.eventHistory = st.eventHistory := by
  induction ts generalizing st with
  | nil => rfl
  | cons t rest ih =>
      unfold processTriggers
      dsimp only
      rw [ih, processTrigger_history]

theorem processTriggers_no_handled {Cond Act Data : Type}
    (evalC : Cond → EvalCtx Data → Bool) (ts : List (Trigger Cond Act))
    (ctx : EvalCtx Data) (st : EngineState Cond Act Data) :
    countHandled (processTriggers evalC ts ctx st).2 = 0 := by
  induction ts generalizing st with
  | nil => rfl
  | cons t rest ih =>
      unfold processTriggers countHandled
      dsimp only
      rw [List.countP_append]
      have h1 := processTrigger_no_handled evalC t ctx st
      unfold countHandled at h1 ih
      rw [h1, ih]

theorem handleEvent_active {Cond Act Data : Type} (rm : String → String → Bool)
    (evalC : Cond → EvalCtx Data → Bool) (st : EngineState Cond Act Data)
    (eventName : String) (data : Data) (now : Nat) :
    (handleEvent rm evalC st eventName data now).1.active = st.active := by
  unfold handleEvent
  dsimp only
  rw [processTriggers_active]
  rfl

theorem handleEvent_one_handled {Cond Act Data : Type}
    (rm : String → String → Bool) (evalC : Cond → EvalCtx Data → Bool)
    (st : EngineState Cond Act Data) (eventName : String) (data : Data)
    (now : Nat) :
    countHandled (handleEvent rm evalC st eventName data now).2 = 1 := by
  unfold handleEvent countHandled
  dsimp only
  rw [List.countP_cons_of_pos _ _ (by simp [isHandledEv])]
  have h := processTriggers_no_handled evalC
    (findMatchingTriggers rm (trackEvent st eventName data now) eventName)
    (mkCtx (trackEvent st eventName data now) eventName data)
    (trackEvent st eventName data now)
  unfold countHandled at h
  omega

theorem publish_fold_count {Cond Act Data : Type} (rm : String → String → Bool)
    (evalC : Cond → EvalCtx Data → Bool) (eventName : String) (data : Data)
    (now : Nat) (l : List String) (st : EngineState Cond Act Data)
    (tr : List (TraceEv Act)) :
    (l.foldl (fun acc _ =>
        if acc.1.active then
          ((handleEvent rm evalC acc.1 eventName data now).1,
            acc.2 ++ (handleEvent rm evalC acc.1 eventName data now).2)
        else acc) (st, tr)).1.active = st.active ∧
    countHandled (l.foldl (fun acc _ =>
        if acc.1.active then
          ((handleEvent rm evalC acc.1 eventName data now).1,
            acc.2 ++ (handleEvent rm evalC acc.1 eventName data now).2)
        else acc) (st, tr)).2 =
      countHandled tr + (if st.active then l.length else 0) := by
  induction l generalizing st tr with
  | nil => simp
  | cons x l ih =>
      rcases Bool.eq_false_or_eq_true st.active with hact | hact
      · have h1 := handleEvent_one_handled rm evalC st eventName data now
        have ihx := ih (handleEvent rm evalC st eventName data now).1
          (tr ++ (handleEvent rm evalC st eventName data now).2)
        rw [handleEvent_active, hact] at ihx
        rw [hact]
        simp only [List.foldl_cons, hact, eq_self_iff_true, if_true]
        refine ⟨by simpa using ihx.1, ?_⟩
        have ih2 := ihx.2
        unfold countHandled at h1 ih2 ⊢
        simp only [eq_self_iff_true, if_true, List.countP_append, h1] at ih2
        rw [ih2]
        simp only [List.length_cons]
        omega
      · have ihx := ih st tr
        rw [hact] at ihx ⊢
        simp only [List.foldl_cons]
        rw [if_neg (by simp [hact])]
        simpa using ihx

/-- C1 as frozen is falsified by double observation: registering a trigger
for the exact pattern foo:bar while the engine is active installs an
EventBus.on subscription for it, so a subsequent publication of foo:bar
invokes handleEvent twice — once through the subscription handler during the
original emit and once through the emit wrapper — not exactly once. -/
theorem C1_counterexample :
    countHandled (publishEvent (fun _ _ => false) (fun _ _ => true)
      (registerDef (⟨"t", none, ["foo:bar"], none, [], false, 0, 0, true, none⟩ :
          Trigger Unit Unit)
        (engineStart (TriggerEngine.init none)) : EngineState Unit Unit Unit)
      "foo:bar" () 0).2 = 2 ∧ (2 : Nat) ≠ 1 :=
  ⟨by decide, by decide⟩

/-- C1 (amended): after TriggerEngine.start, a publication on the shared
Event Bus is observed by handleEvent once via the emit wrapper — unless the
event name starts with scenario:action:, which the wrapper skips — plus once
per active per-pattern subscription to the exact event name (such
subscriptions are created when a trigger with a non-wildcard pattern is
registered while the engine is active); in particular an event subscribed
that way is handled twice per publication, and an event without such a
subscription exactly once. -/
theorem C1_publish_observation_count {Cond Act Data : Type}
    (rm : String → String → Bool) (evalC : Cond → EvalCtx Data → Bool)
    (st : EngineState Cond Act Data) (eventName : String) (data : Data)
    (now : Nat) (hact : st.active = true) :
    countHandled (publishEvent rm evalC st eventName data now).2 =
      st.subscriptions.countP (fun p => p == eventName) +
        (if strStartsWith eventName "scenario:action:" then 0 else 1) := by
  obtain ⟨hfa, hfc⟩ := publish_fold_count rm evalC eventName data now
    (st.subscriptions.filter (fun p => p == eventName)) st []
  rw [hact] at hfa hfc
  have hlen : (st.subscriptions.filter (fun p => p == eventName)).length =
      st.subscriptions.countP (fun p => p == eventName) :=
    (List.countP_eq_length_filter _ _).symm
  unfold publishEvent
  dsimp only
  rw [hfa]
  rcases hpre : strStartsWith eventName "scenario:action:" with _ | _
  · simp only [hpre, Bool.not_false, Bool.and_true, if_true, if_pos]
    unfold countHandled at hfc ⊢
    rw [List.countP_append, hfc]
    have h1 := handleEvent_one_handled rm evalC
      ((st.subscriptions.filter (fun p => p == eventName)).foldl (fun acc _ =>
        if acc.1.active then
          ((handleEvent rm evalC acc.1 eventName data now).1,
            acc.2 ++ (handleEvent rm evalC acc.1 eventName data now).2)
        else acc) (st, [])).1 eventName data now
    unfold countHandled at h1
    rw [h1, hlen]
    simp
  · simp only [hpre, Bool.not_true, Bool.and_false]
    rw [if_neg (by simp)]
    unfold countHandled at hfc ⊢
    rw [hfc, hlen]
    simp

/-- Witness for C1 (amended) at a concrete input: one active subscription to
foo:bar, so the publication is handled twice. -/
theorem C1_publish_observation_count_witness :
    countHandled (publishEvent (fun _ _ => false) (fun _ _ => true)
      ({ (TriggerEngine.init none : EngineState Unit Unit Unit) with
          active := true, subscriptions := ["foo:bar"],
          triggers := [("foo:bar", [])] })
      "foo:bar" () 0).2 = 2 := by
  have h := C1_publish_observation_count (fun _ _ => false) (fun _ _ => true)
    ({ (TriggerEngine.init none : EngineState Unit Unit Unit) with
        active := true, subscriptions := ["foo:bar"],
        triggers := [("foo:bar", [])] })
    "foo:bar" () 0 rfl
  rw [h]
  decide

/-- History entry built by trackEvent for a (name, payload, timestamp)
event. -/
def entryOf {Data : Type} (e : String × Data × Nat) : HistEntry Data :=
  ⟨e.1, e.2.1, e.2.2⟩

/-- Handle a list of inbound events in order (state only). -/
def handleAll {Cond Act Data : Type} (rm : String → String → Bool)
    (evalC : Cond → EvalCtx Data → Bool) (evs : List (String × Data × Nat))
    (st : EngineState Cond Act Data) : EngineState Cond Act Data :=
  evs.foldl (fun st e => (handleEvent rm evalC st e.1 e.2.1 e.2.2).1) st

/-- Last maxHistoryLength elements of a list. -/
def window {α : Type} (l : List α) : List α :=
  l.drop (l.length - maxHistoryLength)

theorem window_of_le {α : Type} (l : List α)
    (h : l.length ≤ maxHistoryLength) : window l = l := by
  unfold window
  rw [Nat.sub_eq_zero_of_le h, List.drop_zero]

theorem window_length_le {α : Type} (l : List α) :
    (window l).length ≤ maxHistoryLength := by
  unfold window
  rw [List.length_drop]
  omega

theorem window_drop_front {α : Type} (C X : List α)
    (h : maxHistoryLength ≤ X.length) : window (C ++ X) = window X := by
  unfold window
  rw [List.length_append]
  rw [show C.length + X.length - maxHistoryLength =
    C.length + (X.length - maxHistoryLength) by omega]
  exact List.drop_append _

theorem window_append {α : Type} (A B : List α) :
    window (window A ++ B) = window (A ++ B) := by
  by_cases hA : A.length ≤ maxHistoryLength
  · rw [window_of_le A hA]
  · have hlen : maxHistoryLength ≤
        (A.drop (A.length - maxHistoryLength) ++ B).length := by
      rw [List.length_append, List.length_drop]
      omega
    conv_rhs =>
      rw [← List.take_append_drop (A.length - maxHistoryLength) A]
    rw [List.append_assoc, window_drop_front _ _ hlen]
    rfl

theorem trackEvent_history {Cond Act Data : Type}
    (st : EngineState Cond Act Data) (e : String) (d : Data) (n : Nat)
    (h : st.eventHistory.length ≤ maxHistoryLength) :
    (trackEvent st e d n).eventHistory =
      window (st.eventHistory ++ [⟨e, d, n⟩]) := by
  unfold trackEvent window
  dsimp only
  rw [List.length_append]
  by_cases hlt : maxHistoryLength < st.eventHistory.length + [(⟨e, d, n⟩ :
      HistEntry Data)].length
  · rw [if_pos (by simpa using hlt)]
    congr 1
    simp only [List.length_cons, List.length_nil] at hlt ⊢
    omega
  · rw [if_neg (by simpa using hlt)]
    simp only [List.length_cons, List.length_nil] at hlt ⊢
    rw [Nat.sub_eq_zero_of_le (by omega), List.drop_zero]

theorem handleEvent_history {Cond Act Data : Type} (rm : String → String → Bool)
    (evalC : Cond → EvalCtx Data → Bool) (st : EngineState Cond Act Data)
    (e : String) (d : Data) (n : Nat) :
    (handleEvent rm evalC st e d n).1.eventHistory =
      (trackEvent st e d n).eventHistory := by
  unfold handleEvent
  dsimp only
  rw [processTriggers_history]

theorem handleAll_history {Cond Act Data : Type} (rm : String → String → Bool)
    (evalC : Cond → EvalCtx Data → Bool) (evs : List (String × Data × Nat))
    (st : EngineState Cond Act Data)
    (h : st.eventHistory.length ≤ maxHistoryLength) :
    (handleAll rm evalC evs st).eventHistory =
      window (st.eventHistory ++ evs.map entryOf) := by
  induction evs generalizing st with
  | nil =>
      simp only [handleAll, List.foldl_nil, List.map_nil, List.append_nil]
      exact (window_of_le _ h).symm
  | cons e evs ih =>
      have hstep : (handleEvent rm evalC st e.1 e.2.1 e.2.2).1.eventHistory =
          window (st.eventHistory ++ [entryOf e]) := by
        rw [handleEvent_history]
        exact trackEvent_history st e.1 e.2.1 e.2.2 h
      have hlen : (handleEvent rm evalC st e.1 e.2.1 e.2.2).1.eventHistory.length ≤
          maxHistoryLength := by
        rw [hstep]
        exact window_length_le _
      have ihx := ih (handleEvent rm evalC st e.1 e.2.1 e.2.2).1 hlen
      unfold handleAll at ihx ⊢
      rw [List.foldl_cons, ihx, hstep, window_append]
      congr 1
      simp

/-- C7: the event-history buffer never exceeds its capacity of 100 entries:
after handling any N greater than 100 events since the engine started or was
reset (empty history), the history length is exactly 100 and its contents
are the most recent 100 events in arrival order, the oldest entries having
been evicted first. -/
theorem C7_history_bound {Cond Act Data : Type} (rm : String → String → Bool)
    (evalC : Cond → EvalCtx Data → Bool) (evs : List (String × Data × Nat))
    (st : EngineState Cond Act Data) (h0 : st.eventHistory = [])
    (hN : 100 < evs.length) :
    (handleAll rm evalC evs st).eventHistory.length = 100 ∧
    (handleAll rm evalC evs st).eventHistory =
      (evs.map entryOf).drop (evs.length - 100) := by
  have h := handleAll_history rm evalC evs st (by rw [h0]; simp)
  rw [h0] at h
  simp only [List.nil_append] at h
  have hmax : maxHistoryLength = 100 := rfl
  constructor
  · rw [h]
    unfold window
    rw [List.length_drop, hmax, List.length_map]
    omega
  · rw [h]
    unfold window
    rw [hmax, List.length_map]

/-- Witness for C7: 101 identical events from a fresh engine leave exactly
100 history entries. -/
theorem C7_history_bound_witness :
    (handleAll (fun _ _ => false) (fun _ _ => true)
      ((List.range 101).map (fun i => ("e", (), i)))
      (TriggerEngine.init none : EngineState Unit Unit Unit)).eventHistory.length
      = 100 :=
  (C7_history_bound (fun _ _ => false) (fun _ _ => true)
    ((List.range 101).map (fun i => ("e", (), i)))
    (TriggerEngine.init none) rfl (by simp)).1

theorem mem_insertByPriority {Cond Act : Type} (t a : Trigger Cond Act)
    (l : List (Trigger Cond Act)) :
    a ∈ insertByPriority t l ↔ a = t ∨ a ∈ l := by
  induction l with
  | nil => simp [insertByPriority]
  | cons u rest ih =>
      unfold insertByPriority
      by_cases h : t.priority < u.priority
      · rw [if_pos h]
        simp only [List.mem_cons, ih]
        tauto
      · rw [if_neg h]
        simp only [List.mem_cons]

theorem mem_sortByPriorityDesc {Cond Act : Type} (a : Trigger Cond Act)
    (l : List (Trigger Cond Act)) :
    a ∈ sortByPriorityDesc l ↔ a ∈ l := by
  induction l with
  | nil => simp [sortByPriorityDesc]
  | cons t rest ih =>
      unfold sortByPriorityDesc
      rw [mem_insertByPriority]
      simp only [List.mem_cons, ih]

theorem alistLookup_mem {α : Type} (l : List (String × α)) (k : String)
    (v : α) (h : alistLookup l k = some v) : (k, v) ∈ l := by
  induction l with
  | nil => simp [alistLookup] at h
  | cons p rest ih =>
      unfold alistLookup at h
      by_cases hk : p.1 = k
      · rw [if_pos hk] at h
        obtain ⟨k', v'⟩ := p
        simp only at hk h
        subst hk
        cases h
        simp
      · rw [if_neg hk] at h
        exact List.mem_cons_of_mem _ (ih h)

theorem alistSet_mem {α : Type} (l : List (String × α)) (k : String) (v : α)
    (p : String × α) (h : p ∈ alistSet l k v) : p ∈ l ∨ p = (k, v) := by
  induction l with
  | nil =>
      simp [alistSet] at h
      simp [h]
  | cons q rest ih =>
      unfold alistSet at h
      by_cases hk : q.1 = k
      · rw [if_pos hk] at h
        rcases List.mem_cons.mp h with h | h
        · right
          rw [h, ← hk]
        · left
          exact List.mem_cons_of_mem _ h
      · rw [if_neg hk] at h
        rcases List.mem_cons.mp h with h | h
        · left
          rw [h]
          simp
        · rcases ih h with h | h
          · exact Or.inl (List.mem_cons_of_mem _ h)
          · exact Or.inr h

theorem alistSet_keys_nodup {α : Type} (l : List (String × α)) (k : String)
    (v : α) (h : (l.map Prod.fst).Nodup) :
    ((alistSet l k v).map Prod.fst).Nodup := by
  induction l with
  | nil => simp [alistSet]
  | cons q rest ih =>
      unfold alistSet
      by_cases hk : q.1 = k
      · rw [if_pos hk]
        simpa using h
      · rw [if_neg hk]
        simp only [List.map_cons, List.nodup_cons] at h ⊢
        refine ⟨?_, ih h.2⟩
        intro hmem
        obtain ⟨p, hp, hq⟩ := List.mem_map.mp hmem
        rcases alistSet_mem rest k v p hp with hin | hin
        · exact h.1 (hq ▸ List.mem_map_of_mem Prod.fst hin)
        · apply hk
          rw [← hq, hin]

theorem alistRemove_mem_ne {α : Type} (l : List (String × α)) (k : String)
    (hnd : (l.map Prod.fst).Nodup) (p : String × α)
    (h : p ∈ alistRemove l k) : p ∈ l ∧ p.1 ≠ k := by
  induction l with
  | nil => simp [alistRemove] at h
  | cons q rest ih =>
      simp only [List.map_cons, List.nodup_cons] at hnd
      unfold alistRemove at h
      by_cases hk : q.1 = k
      · rw [if_pos hk] at h
        refine ⟨List.mem_cons_of_mem _ h, ?_⟩
        intro hpk
        exact hnd.1 (by rw [hk, ← hpk]; exact List.mem_map_of_mem Prod.fst h)
      · rw [if_neg hk] at h
        rcases List.mem_cons.mp h with h | h
        · subst h
          exact ⟨List.mem_cons_self _ _, hk⟩
        · obtain ⟨h1, h2⟩ := ih hnd.2 h
          exact ⟨List.mem_cons_of_mem _ h1, h2⟩

theorem alistRemove_mem {α : Type} (l : List (String × α)) (k : String)
    (p : String × α) (h : p ∈ alistRemove l k) : p ∈ l := by
  induction l with
  | nil => simp [alistRemove] at h
  | cons q rest ih =>
      unfold alistRemove at h
      by_cases hk : q.1 = k
      · rw [if_pos hk] at h
        exact List.mem_cons_of_mem _ h
      · rw [if_neg hk] at h
        rcases List.mem_cons.mp h with h | h
        · rw [h]
          simp
        · exact List.mem_cons_of_mem _ (ih h)

/-- Triggers reachable from the engine's pattern buckets and global list. -/
def allTriggerList {Cond Act Data : Type} (st : EngineState Cond Act Data) :
    List (Trigger Cond Act) :=
  st.triggers.flatMap (fun pr => pr.2) ++ st.globalTriggers

/-- Every trigger stored anywhere in the engine: buckets, globals and the
triggers captured by pending debounce timers. -/
def storedTriggers {Cond Act Data : Type} (st : EngineState Cond Act Data) :
    List (Trigger Cond Act) :=
  allTriggerList st ++ st.debounceTimers.map (fun pr => pr.2.1)

/-- Every trigger with the given id stored in the engine is a once trigger
(in a well-formed run this holds because trigger ids are unique). -/
def OnceAt {Cond Act Data : Type} (I : String)
    (st : EngineState Cond Act Data) : Prop :=
  ∀ t ∈ storedTriggers st, t.id = I → t.once = true

/-- Potential: 1 while the id has not been recorded as fired, 0 after. -/
def oncePotential {Cond Act Data : Type} (I : String)
    (st : EngineState Cond Act Data) : Nat :=
  if st.firedTriggers.contains I then 0 else 1

theorem findMatchingTriggers_subset {Cond Act Data : Type}
    (rm : String → String → Bool) (st : EngineState Cond Act Data)
    (eventName : String) (t : Trigger Cond Act)
    (h : t ∈ findMatchingTriggers rm st eventName) : t ∈ allTriggerList st := by
  unfold findMatchingTriggers at h
  rw [mem_sortByPriorityDesc] at h
  have h' := List.mem_filter.mp h
  rcases List.mem_append.mp h'.1 with h1 | h1
  · rcases List.mem_append.mp h1 with h2 | h2
    · rcases hl : alistLookup st.triggers eventName with _ | bucket
      · rw [hl] at h2
        simp at h2
      · rw [hl] at h2
        simp only [Option.getD_some] at h2
        have := alistLookup_mem _ _ _ hl
        unfold allTriggerList
        refine List.mem_append.mpr (Or.inl ?_)
        exact List.mem_flatMap.mpr ⟨(eventName, bucket), this, h2⟩
    · unfold allTriggerList
      refine List.mem_append.mpr (Or.inl ?_)
      obtain ⟨pr, hpr, hin⟩ := List.mem_flatMap.mp h2
      exact List.mem_flatMap.mpr ⟨pr, (List.mem_filter.mp hpr).1, hin⟩
  · unfold allTriggerList
    exact List.mem_append.mpr (Or.inr h1)

theorem trackEvent_stored {Cond Act Data : Type}
    (st : EngineState Cond Act Data) (e : String) (d : Data) (n : Nat) :
    storedTriggers (trackEvent st e d n) = storedTriggers st := rfl

theorem trackEvent_fired {Cond Act Data : Type}
    (st : EngineState Cond Act Data) (e : String) (d : Data) (n : Nat) :
    (trackEvent st e d n).firedTriggers = st.firedTriggers := rfl

theorem contains_append_self (l : List String) (a : String) :
    (l ++ [a]).contains a = true := by
  simp [List.mem_append]

theorem contains_append_ne (l : List String) (a b : String) (h : b ≠ a) :
    (l ++ [b]).contains a = l.contains a := by
  simp only [List.contains_eq_any_beq, List.any_append]
  have : [b].any (a == ·) = false := by
    simp only [List.any_cons, List.any_nil, Bool.or_false]
    exact beq_false_of_ne (fun he => h he.symm)
  rw [this, Bool.or_false]

/-- Debounce-timer shape invariant: every pending entry is keyed by its
trigger's id, stores a trigger with positive debounce that is reachable from
the engine state, and keys are unique (JS Map semantics from an initially
empty map). -/
def TimersWF {Cond Act Data : Type} (st : EngineState Cond Act Data) : Prop :=
  (∀ p ∈ st.debounceTimers, p.1 = (p.2.1).id ∧ 0 < (p.2.1).debounce) ∧
  (st.debounceTimers.map Prod.fst).Nodup

/-- At most one distinct trigger carries the given id anywhere in the
engine (the specified uniqueness of trigger ids within an engine run). -/
def UniqueAt {Cond Act Data : Type} (I : String)
    (st : EngineState Cond Act Data) : Prop :=
  ∀ t1 ∈ storedTriggers st, ∀ t2 ∈ storedTriggers st,
    t1.id = I → t2.id = I → t1 = t2

/-- No pending debounce timer holds a trigger with the given id once that id
has been recorded as fired. -/
def NoTimerAfterFired {Cond Act Data : Type} (I : String)
    (st : EngineState Cond Act Data) : Prop :=
  st.firedTriggers.contains I = true →
    ∀ p ∈ st.debounceTimers, (p.2.1).id ≠ I

/-- Invariant bundle under which a once id can fire at most once. -/
def OnceInv {Cond Act Data : Type} (I : String)
    (st : EngineState Cond Act Data) : Prop :=
  OnceAt I st ∧ UniqueAt I st ∧ TimersWF st ∧ NoTimerAfterFired I st

theorem stored_of_bucket {Cond Act Data : Type}
    (st : EngineState Cond Act Data) (x : Trigger Cond Act)
    (h : x ∈ allTriggerList st) : x ∈ storedTriggers st :=
  List.mem_append.mpr (Or.inl h)

theorem stored_of_timer {Cond Act Data : Type}
    (st : EngineState Cond Act Data)
    (p : String × (Trigger Cond Act × EvalCtx Data))
    (h : p ∈ st.debounceTimers) : p.2.1 ∈ storedTriggers st :=
  List.mem_append.mpr (Or.inr (List.mem_map_of_mem _ h))

theorem countP_isFiredOf_actions {Cond Act : Type} (I : String)
    (t : Trigger Cond Act) :
    (t.actions.map (fun a => TraceEv.action t.id a)).countP (isFiredOf I) = 0 := by
  rw [List.countP_eq_zero]
  intro e he
  obtain ⟨a, _, rfl⟩ := List.mem_map.mp he
  simp [isFiredOf]

theorem fireTrigger_buckets {Cond Act Data : Type} (t : Trigger Cond Act)
    (st : EngineState Cond Act Data) :
    (fireTrigger t st).1.triggers = st.triggers ∧
    (fireTrigger t st).1.globalTriggers = st.globalTriggers ∧
    (fireTrigger t st).1.debounceTimers = st.debounceTimers := by
  unfold fireTrigger
  dsimp only
  split
  · split <;> exact ⟨rfl, rfl, rfl⟩
  · exact ⟨rfl, rfl, rfl⟩

theorem fireTrigger_once_spec {Cond Act Data : Type} (I : String)
    (t : Trigger Cond Act) (st : EngineState Cond Act Data)
    (htOnce : t.id = I → t.once = true)
    (hguard : t.id = I → st.firedTriggers.contains I = false)
    (hnotimer : t.id = I → ∀ p ∈ st.debounceTimers, (p.2.1).id ≠ I)
    (hInv : OnceInv I st) :
    OnceInv I (fireTrigger t st).1 ∧
    (fireTrigger t st).2.countP (isFiredOf I) +
      oncePotential I (fireTrigger t st).1 ≤ oncePotential I st := by
  obtain ⟨hOnce, hUniq, hT, hN⟩ := hInv
  have hstored : storedTriggers (fireTrigger t st).1 = storedTriggers st := by
    unfold storedTriggers allTriggerList
    rw [(fireTrigger_buckets t st).1, (fireTrigger_buckets t st).2.1,
      (fireTrigger_buckets t st).2.2]
  have htimers := (fireTrigger_buckets t st).2.2
  have hcount : (fireTrigger t st).2.countP (isFiredOf I) =
      (if t.id = I then 1 else 0) := by
    unfold fireTrigger
    dsimp only
    rw [List.countP_cons, countP_isFiredOf_actions]
    by_cases hI : t.id = I
    · simp [isFiredOf, hI]
    · simp [isFiredOf, hI]
  by_cases hI : t.id = I
  · have ho := htOnce hI
    have hc := hguard hI
    have hfired : (fireTrigger t st).1.firedTriggers =
        st.firedTriggers ++ [t.id] := by
      unfold fireTrigger
      dsimp only
      rw [ho, if_pos rfl, hI, if_neg (by rw [hc]; simp)]
    have hc' : (fireTrigger t st).1.firedTriggers.contains I = true := by
      rw [hfired, hI]
      exact contains_append_self _ _
    refine ⟨⟨?_, ?_, ?_, ?_⟩, ?_⟩
    · intro x hx
      exact hOnce x (hstored ▸ hx)
    · intro t1 h1 t2 h2
      exact hUniq t1 (hstored ▸ h1) t2 (hstored ▸ h2)
    · rw [TimersWF, htimers]
      exact hT
    · intro _ p hp
      exact hnotimer hI p (htimers ▸ hp)
    · rw [hcount, if_pos hI]
      unfold oncePotential
      rw [hc', hc]
      simp
  · have hfired : (fireTrigger t st).1.firedTriggers.contains I =
        st.firedTriggers.contains I := by
      unfold fireTrigger
      dsimp only
      split
      · split
        · rfl
        · exact contains_append_ne _ _ _ hI
      · rfl
    refine ⟨⟨?_, ?_, ?_, ?_⟩, ?_⟩
    · intro x hx
      exact hOnce x (hstored ▸ hx)
    · intro t1 h1 t2 h2
      exact hUniq t1 (hstored ▸ h1) t2 (hstored ▸ h2)
    · rw [TimersWF, htimers]
      exact hT
    · intro hcI p hp
      exact hN (by rw [← hfired]; exact hcI) p (htimers ▸ hp)
    · rw [hcount, if_neg hI]
      unfold oncePotential
      rw [hfired]
      simp

theorem processTrigger_buckets {Cond Act Data : Type}
    (evalC : Cond → EvalCtx Data → Bool) (t : Trigger Cond Act)
    (ctx : EvalCtx Data) (st : EngineState Cond Act Data) :
    (processTrigger evalC t ctx st).1.triggers = st.triggers ∧
    (processTrigger evalC t ctx st).1.globalTriggers = st.globalTriggers := by
  unfold processTrigger
  split
  · exact ⟨rfl, rfl⟩
  split
  · exact ⟨rfl, rfl⟩
  split
  · exact ⟨rfl, rfl⟩
  · exact ⟨(fireTrigger_buckets t st).1, (fireTrigger_buckets t st).2.1⟩

theorem processTrigger_once {Cond Act Data : Type} (I : String)
    (evalC : Cond → EvalCtx Data → Bool) (t : Trigger Cond Act)
    (ctx : EvalCtx Data) (st : EngineState Cond Act Data)
    (ht : t ∈ allTriggerList st) (hInv : OnceInv I st) :
    OnceInv I (processTrigger evalC t ctx st).1 ∧
    (processTrigger evalC t ctx st).2.countP (isFiredOf I) +
      oncePotential I (processTrigger evalC t ctx st).1 ≤ oncePotential I st := by
  obtain ⟨hOnce, hUniq, hT, hN⟩ := hInv
  have htS : t ∈ storedTriggers st := stored_of_bucket st t ht
  unfold processTrigger
  split
  · exact ⟨⟨hOnce, hUniq, hT, hN⟩, by simp⟩
  next hskip =>
  split
  · exact ⟨⟨hOnce, hUniq, hT, hN⟩, by simp⟩
  split
  next hdeb =>
    have hmem : ∀ x ∈ storedTriggers { st with
        debounceTimers := alistSet st.debounceTimers t.id (t, ctx) },
        x ∈ storedTriggers st := by
      intro x hx
      rcases List.mem_append.mp hx with hx | hx
      · exact stored_of_bucket st x hx
      · obtain ⟨p, hp, rfl⟩ := List.mem_map.mp hx
        rcases alistSet_mem _ _ _ _ hp with hp | hp
        · exact stored_of_timer st p hp
        · rw [hp]
          exact htS
    have htid : t.id = I → st.firedTriggers.contains I = false := by
      intro hI
      rcases Bool.eq_false_or_eq_true (st.firedTriggers.contains I) with hc | hc
      · exfalso
        rw [← hI] at hc
        exact hskip (by rw [hOnce t htS hI, hc]; rfl)
      · exact hc
    refine ⟨⟨?_, ?_, ⟨?_, ?_⟩, ?_⟩, by simp [oncePotential]⟩
    · intro x hx
      exact hOnce x (hmem x hx)
    · intro t1 h1 t2 h2
      exact hUniq t1 (hmem t1 h1) t2 (hmem t2 h2)
    · intro p hp
      rcases alistSet_mem _ _ _ _ hp with hp | hp
      · exact hT.1 p hp
      · rw [hp]
        exact ⟨rfl, hdeb⟩
    · exact alistSet_keys_nodup _ _ _ hT.2
    · intro hcI p hp
      rcases alistSet_mem _ _ _ _ hp with hp | hp
      · exact hN hcI p hp
      · rw [hp]
        intro hid
        rw [htid hid] at hcI
        cases hcI
  next hdeb =>
    refine fireTrigger_once_spec I t st (fun hI => hOnce t htS hI) ?_ ?_
      ⟨hOnce, hUniq, hT, hN⟩
    · intro hI
      rcases Bool.eq_false_or_eq_true (st.firedTriggers.contains I) with hc | hc
      · exfalso
        rw [← hI] at hc
        exact hskip (by rw [hOnce t htS hI, hc]; rfl)
      · exact hc
    · intro hI p hp
      intro hpid
      have := hUniq (p.2.1) (stored_of_timer st p hp) t htS hpid hI
      have hd := (hT.1 p hp).2
      rw [this] at hd
      exact hdeb hd

theorem allTriggerList_eq_of {Cond Act Data : Type}
    (st st' : EngineState Cond Act Data) (h1 : st'.triggers = st.triggers)
    (h2 : st'.globalTriggers = st.globalTriggers) :
    allTriggerList st' = allTriggerList st := by
  unfold allTriggerList
  rw [h1, h2]

theorem processTriggers_once {Cond Act Data : Type} (I : String)
    (evalC : Cond → EvalCtx Data → Bool) (ts : List (Trigger Cond Act))
    (ctx : EvalCtx Data) (st : EngineState Cond Act Data)
    (hts : ∀ t ∈ ts, t ∈ allTriggerList st) (hInv : OnceInv I st) :
    OnceInv I (processTriggers evalC ts ctx st).1 ∧
    (processTriggers evalC ts ctx st).2.countP (isFiredOf I) +
      oncePotential I (processTriggers evalC ts ctx st).1 ≤ oncePotential I st ∧
    (processTriggers evalC ts ctx st).1.triggers = st.triggers ∧
    (processTriggers evalC ts ctx st).1.globalTriggers = st.globalTriggers := by
  induction ts generalizing st with
  | nil => exact ⟨hInv, by simp [processTriggers], rfl, rfl⟩
  | cons t rest ih =>
      have h1 := processTrigger_once I evalC t ctx st (hts t (by simp)) hInv
      have hbk := processTrigger_buckets evalC t ctx st
      have hall := allTriggerList_eq_of st (processTrigger evalC t ctx st).1
        hbk.1 hbk.2
      have hts' : ∀ x ∈ rest, x ∈ allTriggerList (processTrigger evalC t ctx st).1 := by
        intro x hx
        rw [hall]
        exact hts x (List.mem_cons_of_mem _ hx)
      have h2 := ih (processTrigger evalC t ctx st).1 hts' h1.1
      unfold processTriggers
      dsimp only
      refine ⟨h2.1, ?_, by rw [h2.2.2.1, hbk.1], by rw [h2.2.2.2, hbk.2]⟩
      rw [List.countP_append]
      have a1 := h1.2
      have a2 := h2.2.1
      omega

theorem handleEvent_once {Cond Act Data : Type} (I : String)
    (rm : String → String → Bool) (evalC : Cond → EvalCtx Data → Bool)
    (st : EngineState Cond Act Data) (eventName : String) (data : Data)
    (now : Nat) (hInv : OnceInv I st) :
    OnceInv I (handleEvent rm evalC st eventName data now).1 ∧
    (handleEvent rm evalC st eventName data now).2.countP (isFiredOf I) +
      oncePotential I (handleEvent rm evalC st eventName data now).1 ≤
        oncePotential I st := by
  have hInv1 : OnceInv I (trackEvent st eventName data now) := hInv
  have hsub : ∀ t ∈ findMatchingTriggers rm (trackEvent st eventName data now)
      eventName, t ∈ allTriggerList (trackEvent st eventName data now) :=
    fun t ht => findMatchingTriggers_subset rm _ _ t ht
  have h := processTriggers_once I evalC
    (findMatchingTriggers rm (trackEvent st eventName data now) eventName)
    (mkCtx (trackEvent st eventName data now) eventName data)
    (trackEvent st eventName data now) hsub hInv1
  unfold handleEvent
  dsimp only
  refine ⟨h.1, ?_⟩
  rw [List.countP_cons_of_neg _ _ (by simp [isFiredOf])]
  have hphi : oncePotential I (trackEvent st eventName data now) =
      oncePotential I st := rfl
  have := h.2.1
  omega

theorem publish_fold_once {Cond Act Data : Type} (I : String)
    (rm : String → String → Bool) (evalC : Cond → EvalCtx Data → Bool)
    (eventName : String) (data : Data) (now : Nat) (l : List String)
    (st : EngineState Cond Act Data) (tr : List (TraceEv Act))
    (hInv : OnceInv I st) :
    OnceInv I (l.foldl (fun acc _ =>
        if acc.1.active then
          ((handleEvent rm evalC acc.1 eventName data now).1,
            acc.2 ++ (handleEvent rm evalC acc.1 eventName data now).2)
        else acc) (st, tr)).1 ∧
    (l.foldl (fun acc _ =>
        if acc.1.active then
          ((handleEvent rm evalC acc.1 eventName data now).1,
            acc.2 ++ (handleEvent rm evalC acc.1 eventName data now).2)
        else acc) (st, tr)).2.countP (isFiredOf I) +
      oncePotential I (l.foldl (fun acc _ =>
        if acc.1.active then
          ((handleEvent rm evalC acc.1 eventName data now).1,
            acc.2 ++ (handleEvent rm evalC acc.1 eventName data now).2)
        else acc) (st, tr)).1 ≤
      tr.countP (isFiredOf I) + oncePotential I st := by
  induction l generalizing st tr with
  | nil => exact ⟨hInv, by simp⟩
  | cons x l ih =>
      rcases Bool.eq_false_or_eq_true st.active with hact | hact
      · have h1 := handleEvent_once I rm evalC st eventName data now hInv
        have ihx := ih (handleEvent rm evalC st eventName data now).1
          (tr ++ (handleEvent rm evalC st eventName data now).2) h1.1
        simp only [List.foldl_cons, hact, eq_self_iff_true, if_true]
        refine ⟨ihx.1, ?_⟩
        have a2 := ihx.2
        rw [List.countP_append] at a2
        have a1 := h1.2
        omega
      · have ihx := ih st tr hInv
        simp only [List.foldl_cons]
        rw [if_neg (by simp [hact])]
        exact ihx

theorem publishEvent_once {Cond Act Data : Type} (I : String)
    (rm : String → String → Bool) (evalC : Cond → EvalCtx Data → Bool)
    (st : EngineState Cond Act Data) (eventName : String) (data : Data)
    (now : Nat) (hInv : OnceInv I st) :
    OnceInv I (publishEvent rm evalC st eventName data now).1 ∧
    (publishEvent rm evalC st eventName data now).2.countP (isFiredOf I) +
      oncePotential I (publishEvent rm evalC st eventName data now).1 ≤
        oncePotential I st := by
  obtain ⟨hf1, hf2⟩ := publish_fold_once I rm evalC eventName data now
    (st.subscriptions.filter (fun p => p == eventName)) st [] hInv
  simp only [List.countP_nil] at hf2
  unfold publishEvent
  dsimp only
  set V := (st.subscriptions.filter (fun p => p == eventName)).foldl
    (fun acc _ =>
      if acc.1.active then
        ((handleEvent rm evalC acc.1 eventName data now).1,
          acc.2 ++ (handleEvent rm evalC acc.1 eventName data now).2)
      else acc) ((st, []) :
        EngineState Cond Act Data × List (TraceEv Act)) with hV
  split
  · dsimp only
    have h1 := handleEvent_once I rm evalC V.1 eventName data now hf1
    refine ⟨h1.1, ?_⟩
    rw [List.countP_append]
    have a1 := h1.2
    omega
  · exact ⟨hf1, by omega⟩

theorem alistRemove_sublist {α : Type} (l : List (String × α)) (k : String) :
    List.Sublist (alistRemove l k) l := by
  induction l with
  | nil => simp [alistRemove]
  | cons q rest ih =>
      unfold alistRemove
      by_cases hk : q.1 = k
      · rw [if_pos hk]
        exact List.sublist_cons_self q rest
      · rw [if_neg hk]
        exact List.Sublist.cons₂ q ih

theorem expireTimer_once {Cond Act Data : Type} (I : String)
    (st : EngineState Cond Act Data) (id : String) (hInv : OnceInv I st) :
    OnceInv I (expireTimer st id).1 ∧
    (expireTimer st id).2.countP (isFiredOf I) +
      oncePotential I (expireTimer st id).1 ≤ oncePotential I st := by
  obtain ⟨hOnce, hUniq, hT, hN⟩ := hInv
  unfold expireTimer
  rcases hl : alistLookup st.debounceTimers id with _ | e
  · exact ⟨⟨hOnce, hUniq, hT, hN⟩, by simp⟩
  · obtain ⟨t, ctx⟩ := e
    have hmem : (id, (t, ctx)) ∈ st.debounceTimers := alistLookup_mem _ _ _ hl
    have hkey : id = t.id := (hT.1 _ hmem).1
    have htS : t ∈ storedTriggers st := stored_of_timer st _ hmem
    set stMid : EngineState Cond Act Data :=
      { st with debounceTimers := alistRemove st.debounceTimers id } with hMid
    have hsubM : ∀ x ∈ storedTriggers stMid, x ∈ storedTriggers st := by
      intro x hx
      rcases List.mem_append.mp hx with hx | hx
      · exact stored_of_bucket st x hx
      · obtain ⟨p, hp, rfl⟩ := List.mem_map.mp hx
        exact stored_of_timer st p (alistRemove_mem _ _ _ hp)
    have hInvM : OnceInv I stMid := by
      refine ⟨fun x hx => hOnce x (hsubM x hx),
        fun t1 h1 t2 h2 => hUniq t1 (hsubM t1 h1) t2 (hsubM t2 h2),
        ⟨fun p hp => hT.1 p (alistRemove_mem _ _ _ hp), ?_⟩,
        fun hcI p hp => hN hcI p (alistRemove_mem _ _ _ hp)⟩
      exact hT.2.sublist (List.Sublist.map _ (alistRemove_sublist _ _))
    refine fireTrigger_once_spec I t stMid
      (fun hI => hOnce t htS hI) ?_ ?_ hInvM
    · intro hI
      rcases Bool.eq_false_or_eq_true (st.firedTriggers.contains I) with hc | hc
      · exact absurd (hkey ▸ hI) (hN hc _ hmem)
      · exact hc
    · intro hI p hp
      obtain ⟨hpin, hpne⟩ := alistRemove_mem_ne _ _ hT.2 p hp
      intro hpid
      exact hpne (by rw [(hT.1 p hpin).1, hpid, ← hI, hkey])

theorem runEngine_once {Cond Act Data : Type} (I : String)
    (rm : String → String → Bool) (evalC : Cond → EvalCtx Data → Bool)
    (steps : List (EngineStep Data)) (st : EngineState Cond Act Data)
    (hInv : OnceInv I st) :
    OnceInv I (runEngine rm evalC steps st).1 ∧
    (runEngine rm evalC steps st).2.countP (isFiredOf I) +
      oncePotential I (runEngine rm evalC steps st).1 ≤ oncePotential I st := by
  induction steps generalizing st with
  | nil => exact ⟨hInv, by simp [runEngine]⟩
  | cons step rest ih =>
      unfold runEngine
      rcases step with ⟨e, d, n⟩ | tid
      · dsimp only
        have h1 := publishEvent_once I rm evalC st e d n hInv
        have h2 := ih (publishEvent rm evalC st e d n).1 h1.1
        refine ⟨h2.1, ?_⟩
        rw [List.countP_append]
        have a1 := h1.2
        have a2 := h2.2
        omega
      · dsimp only
        have h1 := expireTimer_once I st tid hInv
        have h2 := ih (expireTimer st tid).1 h1.1
        refine ⟨h2.1, ?_⟩
        rw [List.countP_append]
        have a1 := h1.2
        have a2 := h2.2
        omega

theorem countP_isActionOf_self {Cond Act : Type} (t : Trigger Cond Act) :
    (t.actions.map (fun a => TraceEv.action t.id a)).countP
      (isActionOf t.id) = t.actions.length := by
  rw [show t.actions.length = (t.actions.map
    (fun a => TraceEv.action t.id a)).length by simp]
  rw [List.countP_eq_length]
  intro e he
  obtain ⟨a, _, rfl⟩ := List.mem_map.mp he
  simp [isActionOf]

theorem findMatchingTriggers_single {Cond Act Data : Type}
    (rm : String → String → Bool) (st : EngineState Cond Act Data)
    (p ev : String) (t : Trigger Cond Act) (cur : Option String)
    (h1 : st.triggers = [(p, [t])]) (h2 : st.globalTriggers = [])
    (h3 : st.currentStageId = cur)
    (hm : p = ev ∨ matchesPattern rm ev p = true)
    (he : t.enabled = true) (hs : stageOk t cur = true) :
    findMatchingTriggers rm st ev = [t] := by
  unfold findMatchingTriggers
  rw [h1, h2, h3]
  by_cases hpe : p = ev
  · subst hpe
    simp [alistLookup, he, hs, sortByPriorityDesc, insertByPriority]
  · have hmP : matchesPattern rm ev p = true := by
      rcases hm with hm | hm
      · exact absurd hm hpe
      · exact hm
    simp [alistLookup, hpe, hmP, he, hs, sortByPriorityDesc, insertByPriority]

theorem processTrigger_pres {Cond Act Data : Type}
    (evalC : Cond → EvalCtx Data → Bool) (t : Trigger Cond Act)
    (ctx : EvalCtx Data) (st : EngineState Cond Act Data) :
    (processTrigger evalC t ctx st).1.currentStageId = st.currentStageId ∧
    (processTrigger evalC t ctx st).1.subscriptions = st.subscriptions ∧
    (processTrigger evalC t ctx st).1.active = st.active := by
  unfold processTrigger
  split
  · exact ⟨rfl, rfl, rfl⟩
  split
  · exact ⟨rfl, rfl, rfl⟩
  split
  · exact ⟨rfl, rfl, rfl⟩
  · refine ⟨?_, ?_, fireTrigger_active t st⟩ <;>
      (unfold fireTrigger; dsimp only; split)
    · split <;> rfl
    · rfl
    · split <;> rfl
    · rfl

theorem processTriggers_pres {Cond Act Data : Type}
    (evalC : Cond → EvalCtx Data → Bool) (ts : List (Trigger Cond Act))
    (ctx : EvalCtx Data) (st : EngineState Cond Act Data) :
    (processTriggers evalC ts ctx st).1.triggers = st.triggers ∧
    (processTriggers evalC ts ctx st).1.globalTriggers = st.globalTriggers ∧
    (processTriggers evalC ts ctx st).1.currentStageId = st.currentStageId ∧
    (processTriggers evalC ts ctx st).1.subscriptions = st.subscriptions := by
  induction ts generalizing st with
  | nil => exact ⟨rfl, rfl, rfl, rfl⟩
  | cons t rest ih =>
      unfold processTriggers
      dsimp only
      obtain ⟨i1, i2, i3, i4⟩ := ih (processTrigger evalC t ctx st).1
      obtain ⟨b1, b2⟩ := processTrigger_buckets evalC t ctx st
      obtain ⟨p1, p2, _⟩ := processTrigger_pres evalC t ctx st
      exact ⟨by rw [i1, b1], by rw [i2, b2], by rw [i3, p1], by rw [i4, p2]⟩

theorem handleEvent_pres {Cond Act Data : Type} (rm : String → String → Bool)
    (evalC : Cond → EvalCtx Data → Bool) (st : EngineState Cond Act Data)
    (e : String) (d : Data) (n : Nat) :
    (handleEvent rm evalC st e d n).1.triggers = st.triggers ∧
    (handleEvent rm evalC st e d n).1.globalTriggers = st.globalTriggers ∧
    (handleEvent rm evalC st e d n).1.currentStageId = st.currentStageId := by
  unfold handleEvent
  dsimp only
  obtain ⟨i1, i2, i3, _⟩ := processTriggers_pres evalC
    (findMatchingTriggers rm (trackEvent st e d n) e)
    (mkCtx (trackEvent st e d n) e d) (trackEvent st e d n)
  exact ⟨i1, i2, i3⟩

/-- C2: once-semantics.  First conjunct: over any run (publications and
debounce-timer expiries) starting from a state whose triggers with a given
id are all once triggers (with ids unique and timers well-formed, and the id
not yet fired), that id fires at most once.  Second conjunct: a registered
once trigger (debounce 0, enabled, stage-eligible, conditions true) matched
by two handled events fires on the first event, is skipped on the second
because it was marked as fired, and its action list is executed exactly
once. -/
theorem C2_once_semantics {Cond Act Data : Type} (rm : String → String → Bool)
    (evalC : Cond → EvalCtx Data → Bool) :
    (∀ (I : String) (steps : List (EngineStep Data))
        (st : EngineState Cond Act Data),
      OnceInv I st → st.firedTriggers.contains I = false →
      (runEngine rm evalC steps st).2.countP (isFiredOf I) ≤ 1) ∧
    (∀ (t : Trigger Cond Act) (p ev1 ev2 : String) (d1 d2 : Data)
        (n1 n2 : Nat) (cur : Option String),
      t.events = [p] → p ≠ "*" → t.once = true → t.debounce = 0 →
      t.enabled = true → stageOk t cur = true →
      (∀ ctx, condHolds evalC t ctx = true) →
      (p = ev1 ∨ matchesPattern rm ev1 p = true) →
      (p = ev2 ∨ matchesPattern rm ev2 p = true) →
      ((handleEvent rm evalC
          (registerDef t (engineStart (TriggerEngine.init cur))) ev1 d1 n1).2 ++
        (handleEvent rm evalC
          (handleEvent rm evalC
            (registerDef t (engineStart (TriggerEngine.init cur)))
            ev1 d1 n1).1 ev2 d2 n2).2).countP (isFiredOf t.id) = 1 ∧
      ((handleEvent rm evalC
          (registerDef t (engineStart (TriggerEngine.init cur))) ev1 d1 n1).2 ++
        (handleEvent rm evalC
          (handleEvent rm evalC
            (registerDef t (engineStart (TriggerEngine.init cur)))
            ev1 d1 n1).1 ev2 d2 n2).2).countP (isActionOf t.id) =
        t.actions.length) := by
  constructor
  · intro I steps st hInv hfired
    have h := runEngine_once I rm evalC steps st hInv
    have hphi : oncePotential I st = 1 := by
      unfold oncePotential
      rw [hfired]
      rfl
    omega
  · intro t p ev1 ev2 d1 d2 n1 n2 cur hev hpstar ho hdeb he hs hcond hm1 hm2
    set st0 := registerDef t (engineStart (TriggerEngine.init cur)) with hst0
    have hreg : st0.triggers = [(p, [t])] ∧ st0.globalTriggers = [] ∧
        st0.firedTriggers = [] ∧ st0.currentStageId = cur := by
      rw [hst0]
      unfold registerDef
      rw [hev]
      simp [registerPattern, hpstar, engineStart, TriggerEngine.init,
        alistLookup, sortByPriorityDesc, insertByPriority]
    set stA := trackEvent st0 ev1 d1 n1 with hA
    have hAtr : stA.triggers = [(p, [t])] := hreg.1
    have hAgl : stA.globalTriggers = [] := hreg.2.1
    have hAfired : stA.firedTriggers = [] := hreg.2.2.1
    have hAstG : stA.currentStageId = cur := hreg.2.2.2
    have hf1 : findMatchingTriggers rm stA ev1 = [t] :=
      findMatchingTriggers_single rm stA p ev1 t cur hAtr hAgl hAstG hm1 he hs
    have hFT : fireTrigger t stA =
        ({ stA with firedTriggers := [t.id] },
          TraceEv.fired t.id :: t.actions.map (fun a => TraceEv.action t.id a)) := by
      unfold fireTrigger
      rw [ho, hAfired]
      simp
    have hPT : processTrigger evalC t (mkCtx stA ev1 d1) stA =
        fireTrigger t stA := by
      unfold processTrigger
      rw [hAfired, ho, hcond, hdeb]
      simp
    have hH1 : handleEvent rm evalC st0 ev1 d1 n1 =
        ({ stA with firedTriggers := [t.id] },
          TraceEv.handled ev1 :: (TraceEv.fired t.id ::
            t.actions.map (fun a => TraceEv.action t.id a)) ++ []) := by
      unfold handleEvent
      dsimp only
      rw [← hA, hf1]
      unfold processTriggers
      dsimp only
      rw [hPT, hFT]
      rfl
    set stB : EngineState Cond Act Data :=
      { stA with firedTriggers := [t.id] } with hB
    set stC := trackEvent stB ev2 d2 n2 with hC
    have hCtr : stC.triggers = [(p, [t])] := hAtr
    have hCgl : stC.globalTriggers = [] := hAgl
    have hCfired : stC.firedTriggers = [t.id] := rfl
    have hCstG : stC.currentStageId = cur := hAstG
    have hf2 : findMatchingTriggers rm stC ev2 = [t] :=
      findMatchingTriggers_single rm stC p ev2 t cur hCtr hCgl hCstG hm2 he hs
    have hPT2 : processTrigger evalC t (mkCtx stC ev2 d2) stC = (stC, []) := by
      unfold processTrigger
      rw [hCfired, ho]
      simp
    have hH2 : handleEvent rm evalC stB ev2 d2 n2 =
        (stC, [TraceEv.handled ev2]) := by
      unfold handleEvent
      dsimp only
      rw [← hC, hf2]
      unfold processTriggers
      dsimp only
      rw [hPT2]
      rfl
    rw [hH1]
    dsimp only
    rw [hH2]
    dsimp only
    constructor
    · simp [List.countP_append, List.countP_cons, isFiredOf,
        countP_isFiredOf_actions]
    · simp [List.countP_append, List.countP_cons, isActionOf,
        countP_isActionOf_self]

/-- Witness for C2 at a concrete input: a once trigger on event e with one
action, handled for two publications of e, fires exactly once and runs its
single action exactly once; and from a fresh engine the at-most-once bound
holds for the empty run. -/
theorem C2_once_semantics_witness :
    ((handleEvent (fun _ _ => false) (fun _ _ => true)
        (registerDef
          (⟨"o", none, ["e"], none, [5], true, 0, 0, true, none⟩ :
            Trigger Unit Nat)
          (engineStart (TriggerEngine.init none)) :
          EngineState Unit Nat Unit) "e" () 0).2 ++
      (handleEvent (fun _ _ => false) (fun _ _ => true)
        (handleEvent (fun _ _ => false) (fun _ _ => true)
          (registerDef
            (⟨"o", none, ["e"], none, [5], true, 0, 0, true, none⟩ :
              Trigger Unit Nat)
            (engineStart (TriggerEngine.init none))) "e" () 0).1
        "e" () 1).2).countP (isFiredOf "o") = 1 ∧
    (runEngine (fun _ _ => false) (fun _ _ => true) []
      (TriggerEngine.init none : EngineState Unit Nat Unit)).2.countP
      (isFiredOf "o") ≤ 1 := by
  constructor
  · exact ((C2_once_semantics (fun _ _ => false) (fun _ _ => true)).2
      (⟨"o", none, ["e"], none, [5], true, 0, 0, true, none⟩ : Trigger Unit Nat)
      "e" "e" "e" () () 0 1 none rfl (by decide) rfl rfl rfl rfl
      (fun _ => rfl) (Or.inl rfl) (Or.inl rfl)).1
  · exact (C2_once_semantics (fun _ _ => false) (fun _ _ => true)).1
      "o" [] (TriggerEngine.init none)
      (by refine ⟨?_, ?_, ⟨?_, ?_⟩, ?_⟩ <;>
        simp [OnceAt, UniqueAt, TimersWF, NoTimerAfterFired, storedTriggers,
          allTriggerList, TriggerEngine.init]) rfl

/-- Ordering property on a list: it splits into a prefix free of p2
elements and a suffix free of p1 elements, so every p1 element precedes
every p2 element. -/
def SplitNoCross {α : Type} (p1 p2 : α → Bool) (l : List α) : Prop :=
  ∃ u v, l = u ++ v ∧ (∀ x ∈ u, p2 x = false) ∧ (∀ x ∈ v, p1 x = false)

theorem snc_nil {α : Type} (p1 p2 : α → Bool) : SplitNoCross p1 p2 [] :=
  ⟨[], [], rfl, by simp, by simp⟩

theorem snc_cons_left {α : Type} {p1 p2 : α → Bool} {l : List α} (x : α)
    (hx : p2 x = false) (h : SplitNoCross p1 p2 l) :
    SplitNoCross p1 p2 (x :: l) := by
  obtain ⟨u, v, rfl, hu, hv⟩ := h
  refine ⟨x :: u, v, rfl, ?_, hv⟩
  intro y hy
  rcases List.mem_cons.mp hy with hy | hy
  · rw [hy]
    exact hx
  · exact hu y hy

theorem snc_all_right {α : Type} {p1 : α → Bool} (p2 : α → Bool)
    {l : List α} (h : ∀ x ∈ l, p1 x = false) : SplitNoCross p1 p2 l :=
  ⟨[], l, rfl, by simp, h⟩

theorem snc_filter {α : Type} {p1 p2 : α → Bool} {l : List α}
    (q : α → Bool) (h : SplitNoCross p1 p2 l) :
    SplitNoCross p1 p2 (l.filter q) := by
  obtain ⟨u, v, rfl, hu, hv⟩ := h
  refine ⟨u.filter q, v.filter q, List.filter_append u v, ?_, ?_⟩
  · intro x hx
    exact hu x (List.mem_of_mem_filter hx)
  · intro x hx
    exact hv x (List.mem_of_mem_filter hx)

theorem pairwise_insertByPriority {Cond Act : Type} (t : Trigger Cond Act)
    (l : List (Trigger Cond Act))
    (h : l.Pairwise (fun a b => b.priority ≤ a.priority)) :
    (insertByPriority t l).Pairwise (fun a b => b.priority ≤ a.priority) := by
  induction l with
  | nil => simp [insertByPriority]
  | cons u rest ih =>
      rw [List.pairwise_cons] at h
      unfold insertByPriority
      by_cases hp : t.priority < u.priority
      · rw [if_pos hp]
        rw [List.pairwise_cons]
        refine ⟨?_, ih h.2⟩
        intro b hb
        rcases (mem_insertByPriority t b rest).mp hb with hb | hb
        · rw [hb]
          exact le_of_lt hp
        · exact h.1 b hb
      · rw [if_neg hp]
        rw [List.pairwise_cons]
        push_neg at hp
        refine ⟨?_, List.pairwise_cons.mpr h⟩
        intro b hb
        rcases List.mem_cons.mp hb with hb | hb
        · rw [hb]
          exact hp
        · exact le_trans (h.1 b hb) hp

theorem pairwise_sortByPriorityDesc {Cond Act : Type}
    (l : List (Trigger Cond Act)) :
    (sortByPriorityDesc l).Pairwise (fun a b => b.priority ≤ a.priority) := by
  induction l with
  | nil => simp [sortByPriorityDesc]
  | cons t rest ih =>
      unfold sortByPriorityDesc
      exact pairwise_insertByPriority t _ ih

theorem snc_of_pairwise {Cond Act : Type} (p1 p2 : Trigger Cond Act → Bool)
    (l : List (Trigger Cond Act))
    (hsort : l.Pairwise (fun a b => b.priority ≤ a.priority))
    (hdom : ∀ a ∈ l, ∀ b ∈ l, p1 a = true → p2 b = true →
      b.priority < a.priority) : SplitNoCross p1 p2 l := by
  induction l with
  | nil => exact snc_nil p1 p2
  | cons x l ih =>
      rw [List.pairwise_cons] at hsort
      rcases Bool.eq_false_or_eq_true (p2 x) with hx | hx
      · refine snc_all_right p2 ?_
        intro y hy
        rcases Bool.eq_false_or_eq_true (p1 y) with hy1 | hy1
        · rcases List.mem_cons.mp hy with rfl | hym
          · have := hdom y (by simp) y (by simp) hy1 hx
            omega
          · have hlt := hdom y (List.mem_cons_of_mem _ hym) x (by simp) hy1 hx
            have hle := hsort.1 y hym
            omega
        · exact hy1
      · refine snc_cons_left x hx ?_
        refine ih hsort.2 ?_
        intro a ha b hb h1 h2
        exact hdom a (List.mem_cons_of_mem _ ha) b (List.mem_cons_of_mem _ hb)
          h1 h2

theorem insert_filter_prio_eq {Cond Act : Type} (t : Trigger Cond Act)
    (pr : Int) (s : List (Trigger Cond Act)) (ht : t.priority = pr) :
    (insertByPriority t s).filter (fun x => x.priority == pr) =
      t :: s.filter (fun x => x.priority == pr) := by
  induction s with
  | nil => simp [insertByPriority, ht]
  | cons a s ih =>
      unfold insertByPriority
      by_cases hp : t.priority < a.priority
      · rw [if_pos hp]
        have ha : (a.priority == pr) = false := by
          rw [ht] at hp
          simp only [beq_eq_false_iff_ne, ne_eq]
          omega
        rw [List.filter_cons_of_neg (by simp [ha]), ih]
        rw [List.filter_cons_of_neg (by simp [ha])]
      · rw [if_neg hp]
        rw [List.filter_cons_of_pos (by simp [ht])]

theorem insert_filter_prio_ne {Cond Act : Type} (t : Trigger Cond Act)
    (pr : Int) (s : List (Trigger Cond Act)) (ht : t.priority ≠ pr) :
    (insertByPriority t s).filter (fun x => x.priority == pr) =
      s.filter (fun x => x.priority == pr) := by
  induction s with
  | nil => simp [insertByPriority, ht]
  | cons a s ih =>
      unfold insertByPriority
      by_cases hp : t.priority < a.priority
      · rw [if_pos hp]
        by_cases ha : a.priority = pr
        · rw [List.filter_cons_of_pos (by simp [ha]), ih,
            List.filter_cons_of_pos (by simp [ha])]
        · rw [List.filter_cons_of_neg (by simp [ha]), ih,
            List.filter_cons_of_neg (by simp [ha])]
      · rw [if_neg hp]
        rw [List.filter_cons_of_neg (by simp [ht])]

theorem sort_filter_prio {Cond Act : Type} (pr : Int)
    (l : List (Trigger Cond Act)) :
    (sortByPriorityDesc l).filter (fun x => x.priority == pr) =
      l.filter (fun x => x.priority == pr) := by
  induction l with
  | nil => rfl
  | cons t l ih =>
      unfold sortByPriorityDesc
      by_cases ht : t.priority = pr
      · rw [insert_filter_prio_eq t pr _ ht, ih,
          List.filter_cons_of_pos (by simp [ht])]
      · rw [insert_filter_prio_ne t pr _ ht, ih,
          List.filter_cons_of_neg (by simp [ht])]

theorem snc_lift {α : Type} (p1 p2 q : α → Bool) (m : List α)
    (htag : ∀ x ∈ m, p1 x = true ∨ p2 x = true → q x = true)
    (h : SplitNoCross p1 p2 (m.filter q)) : SplitNoCross p1 p2 m := by
  induction m with
  | nil => exact snc_nil p1 p2
  | cons e m ih =>
      have htag' : ∀ x ∈ m, p1 x = true ∨ p2 x = true → q x = true :=
        fun x hx => htag x (List.mem_cons_of_mem _ hx)
      rcases Bool.eq_false_or_eq_true (p2 e) with he2 | he2
      · have hq : q e = true := htag e (by simp) (Or.inr he2)
        rw [List.filter_cons_of_pos hq] at h
        obtain ⟨u, v, heq, hu, hv⟩ := h
        cases u with
        | nil =>
            simp only [List.nil_append] at heq
            refine snc_all_right p2 ?_
            intro y hy
            rcases List.mem_cons.mp hy with rfl | hym
            · rw [← heq] at hv
              exact hv y (by simp)
            · rcases Bool.eq_false_or_eq_true (p1 y) with hy1 | hy1
              · have hqy : q y = true := htag' y hym (Or.inl hy1)
                have hyf : y ∈ m.filter q := List.mem_filter.mpr ⟨hym, hqy⟩
                rw [← heq] at hv
                exact hv y (List.mem_cons_of_mem _ hyf)
              · exact hy1
        | cons u0 u' =>
            exfalso
            have hu0 : u0 = e := by
              have := congrArg (fun l => l.head?) heq
              simpa using this.symm
            have hpe : p2 e = false := hu0 ▸ hu u0 (by simp)
            rw [he2] at hpe
            cases hpe
      · have hm : SplitNoCross p1 p2 (m.filter q) := by
          by_cases hq : q e = true
          · rw [List.filter_cons_of_pos hq] at h
            obtain ⟨u, v, heq, hu, hv⟩ := h
            cases u with
            | nil =>
                simp only [List.nil_append] at heq
                cases v with
                | nil => cases heq
                | cons v0 v' =>
                    have h2 : List.filter q m = v' := by
                      have := congrArg (fun l => l.tail) heq
                      simpa using this
                    refine ⟨[], List.filter q m, by simp, by simp, ?_⟩
                    intro x hx
                    exact hv x (List.mem_cons_of_mem _ (h2 ▸ hx))
            | cons u0 u' =>
                have h2 : List.filter q m = u' ++ v := by
                  have := congrArg (fun l => l.tail) heq
                  simpa using this
                refine ⟨u', v, h2, ?_, hv⟩
                intro x hx
                exact hu x (List.mem_cons_of_mem _ hx)
          · rw [List.filter_cons_of_neg hq] at h
            exact h
        exact snc_cons_left e he2 (ih htag' hm)

theorem snc_sort_stable {Cond Act : Type} (p1 p2 : Trigger Cond Act → Bool)
    (pr : Int) (l : List (Trigger Cond Act))
    (htag : ∀ x ∈ l, p1 x = true ∨ p2 x = true → x.priority = pr)
    (h : SplitNoCross p1 p2 l) :
    SplitNoCross p1 p2 (sortByPriorityDesc l) := by
  refine snc_lift p1 p2 (fun x => x.priority == pr) _ ?_ ?_
  · intro x hx htx
    have := htag x ((mem_sortByPriorityDesc x l).mp hx) htx
    simp [this]
  · rw [sort_filter_prio]
    exact snc_filter _ h

/-- Boolean check that in a trace every event attributed to the first id
occurs strictly before every event attributed to the second id: from the
first I2-tagged event on, no I1-tagged event may appear. -/
def tagsStrictlyBefore {Act : Type} (I1 I2 : String) :
    List (TraceEv Act) → Bool
  | [] => true
  | e :: rest =>
      if isTagOf I2 e then
        !isTagOf I1 e && rest.all (fun x => !isTagOf I1 x)
      else tagsStrictlyBefore I1 I2 rest

theorem checker_of_no1 {Act : Type} (I1 I2 : String)
    (tr : List (TraceEv Act)) (h : ∀ e ∈ tr, isTagOf I1 e = false) :
    tagsStrictlyBefore I1 I2 tr = true := by
  induction tr with
  | nil => rfl
  | cons e rest ih =>
      unfold tagsStrictlyBefore
      by_cases h2 : isTagOf I2 e = true
      · rw [if_pos h2]
        simp only [Bool.and_eq_true, List.all_eq_true]
        refine ⟨by rw [h e (by simp)]; rfl, ?_⟩
        intro x hx
        rw [h x (List.mem_cons_of_mem _ hx)]
        rfl
      · rw [if_neg h2]
        exact ih (fun x hx => h x (List.mem_cons_of_mem _ hx))

theorem snc_checker {Act : Type} (I1 I2 : String) (tr : List (TraceEv Act))
    (h : SplitNoCross (isTagOf I1) (isTagOf I2) tr) :
    tagsStrictlyBefore I1 I2 tr = true := by
  obtain ⟨u, v, rfl, hu, hv⟩ := h
  induction u with
  | nil => exact checker_of_no1 I1 I2 v hv
  | cons e u ih =>
      simp only [List.cons_append]
      unfold tagsStrictlyBefore
      rw [if_neg (by rw [hu e (by simp)]; simp)]
      exact ih (fun x hx => hu x (List.mem_cons_of_mem _ hx))

theorem fireTrigger_tags {Cond Act Data : Type} (t : Trigger Cond Act)
    (st : EngineState Cond Act Data) (e : TraceEv Act)
    (he : e ∈ (fireTrigger t st).2) (J : String)
    (hj : isTagOf J e = true) : t.id = J := by
  unfold fireTrigger at he
  dsimp only at he
  rcases List.mem_cons.mp he with rfl | he
  · simpa [isTagOf] using hj
  · obtain ⟨a, _, rfl⟩ := List.mem_map.mp he
    simpa [isTagOf] using hj

theorem processTrigger_tags {Cond Act Data : Type}
    (evalC : Cond → EvalCtx Data → Bool) (t : Trigger Cond Act)
    (ctx : EvalCtx Data) (st : EngineState Cond Act Data) (e : TraceEv Act)
    (he : e ∈ (processTrigger evalC t ctx st).2) (J : String)
    (hj : isTagOf J e = true) : t.id = J := by
  unfold processTrigger at he
  split at he
  · cases he
  · split at he
    · cases he
    · split at he
      · cases he
      · exact fireTrigger_tags t st e he J hj

theorem processTriggers_append {Cond Act Data : Type}
    (evalC : Cond → EvalCtx Data → Bool) (u v : List (Trigger Cond Act))
    (ctx : EvalCtx Data) (st : EngineState Cond Act Data) :
    processTriggers evalC (u ++ v) ctx st =
      ((processTriggers evalC v ctx (processTriggers evalC u ctx st).1).1,
        (processTriggers evalC u ctx st).2 ++
          (processTriggers evalC v ctx (processTriggers evalC u ctx st).1).2) := by
  induction u generalizing st with
  | nil => simp [processTriggers]
  | cons x u ih =>
      simp only [List.cons_append]
      conv_lhs => unfold processTriggers
      conv_rhs => rw [show processTriggers evalC (x :: u) ctx st =
        ((processTriggers evalC u ctx (processTrigger evalC x ctx st).1).1,
          (processTrigger evalC x ctx st).2 ++
            (processTriggers evalC u ctx
              (processTrigger evalC x ctx st).1).2) from rfl]
      dsimp only
      rw [ih]
      simp [List.append_assoc]

theorem processTriggers_tags {Cond Act Data : Type}
    (evalC : Cond → EvalCtx Data → Bool) (ts : List (Trigger Cond Act))
    (ctx : EvalCtx Data) (st : EngineState Cond Act Data) (e : TraceEv Act)
    (he : e ∈ (processTriggers evalC ts ctx st).2) (J : String)
    (hj : isTagOf J e = true) : ∃ t ∈ ts, t.id = J := by
  induction ts generalizing st with
  | nil => cases he
  | cons t rest ih =>
      unfold processTriggers at he
      dsimp only at he
      rcases List.mem_append.mp he with he | he
      · exact ⟨t, by simp, processTrigger_tags evalC t ctx st e he J hj⟩
      · obtain ⟨x, hx, hid⟩ := ih (processTrigger evalC t ctx st).1 he
        exact ⟨x, List.mem_cons_of_mem _ hx, hid⟩

theorem processTriggers_snc {Cond Act Data : Type} (I1 I2 : String)
    (evalC : Cond → EvalCtx Data → Bool) (ts : List (Trigger Cond Act))
    (ctx : EvalCtx Data) (st : EngineState Cond Act Data)
    (h : SplitNoCross (fun t => t.id == I1) (fun t => t.id == I2) ts) :
    SplitNoCross (isTagOf I1) (isTagOf I2)
      (processTriggers evalC ts ctx st).2 := by
  obtain ⟨u, v, rfl, hu, hv⟩ := h
  rw [processTriggers_append]
  refine ⟨(processTriggers evalC u ctx st).2,
    (processTriggers evalC v ctx (processTriggers evalC u ctx st).1).2,
    rfl, ?_, ?_⟩
  · intro e he
    rcases Bool.eq_false_or_eq_true (isTagOf I2 e) with ht | ht
    · exfalso
      obtain ⟨x, hx, hid⟩ := processTriggers_tags evalC u ctx st e he I2 ht
      have := hu x hx
      simp [hid] at this
    · exact ht
  · intro e he
    rcases Bool.eq_false_or_eq_true (isTagOf I1 e) with ht | ht
    · exfalso
      obtain ⟨x, hx, hid⟩ := processTriggers_tags evalC v _ _ e he I1 ht
      have := hv x hx
      simp [hid] at this
    · exact ht

/-- Pre-filter candidate collection of findMatchingTriggers
(TriggerEngine.js:387-402): exact bucket, then wildcard-matching buckets in
map insertion order, then global triggers. -/
def matchCandidates {Cond Act Data : Type} (rm : String → String → Bool)
    (st : EngineState Cond Act Data) (eventName : String) :
    List (Trigger Cond Act) :=
  (alistLookup st.triggers eventName).getD [] ++
    (st.triggers.filter
      (fun pr => pr.1 ≠ eventName ∧ matchesPattern rm eventName pr.1)).flatMap
      (fun pr => pr.2) ++
    st.globalTriggers

theorem findMatchingTriggers_eq {Cond Act Data : Type}
    (rm : String → String → Bool) (st : EngineState Cond Act Data)
    (eventName : String) :
    findMatchingTriggers rm st eventName =
      sortByPriorityDesc ((matchCandidates rm st eventName).filter
        (fun t => t.enabled && stageOk t st.currentStageId)) := rfl

theorem findMatchingTriggers_trackEvent {Cond Act Data : Type}
    (rm : String → String → Bool) (st : EngineState Cond Act Data)
    (e : String) (d : Data) (n : Nat) (ev : String) :
    findMatchingTriggers rm (trackEvent st e d n) ev =
      findMatchingTriggers rm st ev := rfl

theorem isTagOf_of_isActionOf {Act : Type} (I : String) (e : TraceEv Act)
    (h : isActionOf I e = true) : isTagOf I e = true := by
  cases e <;> first
  | (simp [isActionOf, isTagOf] at h ⊢; exact h)
  | simp [isActionOf, isTagOf] at h ⊢

theorem processTrigger_fired_contains_ne {Cond Act Data : Type}
    (evalC : Cond → EvalCtx Data → Bool) (x : Trigger Cond Act)
    (ctx : EvalCtx Data) (st : EngineState Cond Act Data) (I : String)
    (hne : x.id ≠ I) :
    (processTrigger evalC x ctx st).1.firedTriggers.contains I =
      st.firedTriggers.contains I := by
  unfold processTrigger
  split
  · rfl
  split
  · rfl
  split
  · rfl
  · unfold fireTrigger
    dsimp only
    split
    · split
      · rfl
      · exact contains_append_ne _ _ _ hne
    · rfl

theorem processTriggers_no_actions {Cond Act Data : Type}
    (evalC : Cond → EvalCtx Data → Bool) (ts : List (Trigger Cond Act))
    (ctx : EvalCtx Data) (st : EngineState Cond Act Data) (I : String)
    (h : ∀ t ∈ ts, t.id ≠ I) :
    (processTriggers evalC ts ctx st).2.countP (isActionOf I) = 0 := by
  rw [List.countP_eq_zero]
  intro e he
  rcases Bool.eq_false_or_eq_true (isActionOf I e) with ht | ht
  · exfalso
    obtain ⟨x, hx, hid⟩ := processTriggers_tags evalC ts ctx st e he I
      (isTagOf_of_isActionOf I e ht)
    exact h x hx hid
  · simp [ht]

theorem processTriggers_count_actions {Cond Act Data : Type}
    (evalC : Cond → EvalCtx Data → Bool) (ts : List (Trigger Cond Act))
    (ctx : EvalCtx Data) (st : EngineState Cond Act Data)
    (t1 : Trigger Cond Act) (hmem : t1 ∈ ts)
    (hone : ts.countP (fun x => x.id == t1.id) = 1)
    (hdeb : t1.debounce = 0) (hcond : condHolds evalC t1 ctx = true)
    (hfired : ¬(t1.once = true ∧ st.firedTriggers.contains t1.id = true)) :
    (processTriggers evalC ts ctx st).2.countP (isActionOf t1.id) =
      t1.actions.length := by
  induction ts generalizing st with
  | nil => cases hmem
  | cons x ts ih =>
      rw [List.countP_cons] at hone
      by_cases hx : x.id = t1.id
      · have htail0 : ts.countP (fun y => y.id == t1.id) = 0 := by
          simp only [hx, beq_self_eq_true, if_pos] at hone
          omega
        have htne : ∀ y ∈ ts, y.id ≠ t1.id := by
          intro y hy
          have hz := List.countP_eq_zero.mp htail0 y hy
          simp at hz
          exact hz
        have hxt : x = t1 := by
          rcases List.mem_cons.mp hmem with rfl | hm
          · rfl
          · exact absurd rfl (htne t1 hm)
        subst hxt
        unfold processTriggers
        dsimp only
        rw [List.countP_append]
        have hskip : (x.once && st.firedTriggers.contains x.id) = false := by
          rcases Bool.eq_false_or_eq_true x.once with ho | ho
          · rcases Bool.eq_false_or_eq_true (st.firedTriggers.contains x.id)
              with hc | hc
            · exact absurd ⟨ho, hc⟩ hfired
            · rw [hc, Bool.and_false]
          · rw [ho, Bool.false_and]
        have hpt : processTrigger evalC x ctx st = fireTrigger x st := by
          unfold processTrigger
          rw [hskip, hcond, hdeb]
          simp
        rw [hpt]
        have hfc : (fireTrigger x st).2.countP (isActionOf x.id) =
            x.actions.length := by
          unfold fireTrigger
          dsimp only
          rw [List.countP_cons_of_neg _ _ (by simp [isActionOf])]
          exact countP_isActionOf_self x
        rw [hfc, processTriggers_no_actions evalC ts ctx _ x.id htne]
        omega
      · have hone' : ts.countP (fun y => y.id == t1.id) = 1 := by
          have hbx : (x.id == t1.id) = false := by simp [hx]
          rw [hbx] at hone
          simp at hone
          exact hone
        have hmem' : t1 ∈ ts := by
          rcases List.mem_cons.mp hmem with rfl | hm
          · exact absurd rfl hx
          · exact hm
        have hfired' : ¬(t1.once = true ∧
            (processTrigger evalC x ctx st).1.firedTriggers.contains t1.id =
              true) := by
          rw [processTrigger_fired_contains_ne evalC x ctx st t1.id hx]
          exact hfired
        unfold processTriggers
        dsimp only
        rw [List.countP_append]
        have hhead : (processTrigger evalC x ctx st).2.countP
            (isActionOf t1.id) = 0 := by
          rw [List.countP_eq_zero]
          intro e he
          rcases Bool.eq_false_or_eq_true (isActionOf t1.id e) with ht | ht
          · exact absurd (processTrigger_tags evalC x ctx st e he t1.id
              (isTagOf_of_isActionOf _ e ht)) hx
          · simp [ht]
        rw [hhead, ih _ hmem' hone' hfired']
        omega

/-- C5 as frozen is falsified on ties: trigger t1 (priority 0, pattern x:*)
is registered before trigger t2 (priority 0, exact pattern x:a); both match
the event x:a with no conditions and debounce 0, yet t2 fires first, because
findMatchingTriggers collects exact-pattern matches before wildcard matches
and the stable priority sort keeps that order for equal priorities — so
registration order is not preserved among equal priorities. -/
theorem C5_counterexample :
    (handleEvent (fun _ _ => false) (fun _ _ => true)
      (registerDef
        (⟨"t2", none, ["x:a"], none, [2], false, 0, 0, true, none⟩ :
          Trigger Unit Nat)
        (registerDef
          (⟨"t1", none, ["x:*"], none, [1], false, 0, 0, true, none⟩ :
            Trigger Unit Nat)
          (engineStart (TriggerEngine.init none))) :
        EngineState Unit Nat Unit) "x:a" () 0).2 =
      [TraceEv.handled "x:a", TraceEv.fired "t2", TraceEv.action "t2" 2,
        TraceEv.fired "t1", TraceEv.action "t1" 1] ∧
    tagsStrictlyBefore "t1" "t2"
      [TraceEv.handled "x:a", TraceEv.fired "t2", (TraceEv.action "t2" 2 :
        TraceEv Nat), TraceEv.fired "t1", TraceEv.action "t1" 1] = false :=
  ⟨by decide, by decide⟩

/-- C5 (amended): for triggers matched by the same inbound event, every
trace event of a strictly higher-priority trigger id precedes every trace
event of a lower-priority id, and each qualifying matched trigger
(occurring once among the candidates, debounce 0, conditions true, not
blocked by once) has its entire action list executed within its own
contiguous segment; among equal priorities the collection order of
findMatchingTriggers (exact-pattern bucket first, then wildcard buckets in
map insertion order, then globals; registration order within one bucket) is
preserved, but registration order across different patterns is not. -/
theorem C5_priority_ordering {Cond Act Data : Type}
    (rm : String → String → Bool) (evalC : Cond → EvalCtx Data → Bool) :
    (∀ (st : EngineState Cond Act Data) (ev : String) (d : Data) (n : Nat)
        (I1 I2 : String),
      (∀ a ∈ findMatchingTriggers rm st ev, ∀ b ∈ findMatchingTriggers rm st ev,
        a.id = I1 → b.id = I2 → b.priority < a.priority) →
      tagsStrictlyBefore I1 I2 (handleEvent rm evalC st ev d n).2 = true) ∧
    (∀ (st : EngineState Cond Act Data) (ev : String) (d : Data) (n : Nat)
        (I1 I2 : String) (pr : Int),
      (∀ x ∈ matchCandidates rm st ev,
        (x.id == I1) = true ∨ (x.id == I2) = true → x.priority = pr) →
      SplitNoCross (fun t => t.id == I1) (fun t => t.id == I2)
        (matchCandidates rm st ev) →
      tagsStrictlyBefore I1 I2 (handleEvent rm evalC st ev d n).2 = true) ∧
    (∀ (st : EngineState Cond Act Data) (ev : String) (d : Data) (n : Nat)
        (t1 : Trigger Cond Act),
      t1 ∈ findMatchingTriggers rm st ev →
      (findMatchingTriggers rm st ev).countP (fun x => x.id == t1.id) = 1 →
      t1.debounce = 0 →
      condHolds evalC t1 (mkCtx (trackEvent st ev d n) ev d) = true →
      ¬(t1.once = true ∧ st.firedTriggers.contains t1.id = true) →
      (handleEvent rm evalC st ev d n).2.countP (isActionOf t1.id) =
        t1.actions.length) := by
  refine ⟨?_, ?_, ?_⟩
  · intro st ev d n I1 I2 hdom
    unfold handleEvent
    dsimp only
    unfold tagsStrictlyBefore
    rw [if_neg (by simp [isTagOf])]
    rw [findMatchingTriggers_trackEvent]
    refine snc_checker I1 I2 _ (processTriggers_snc I1 I2 evalC _ _ _ ?_)
    rw [findMatchingTriggers_eq]
    refine snc_of_pairwise _ _ _ (pairwise_sortByPriorityDesc _) ?_
    intro a ha b hb h1 h2
    rw [← findMatchingTriggers_eq] at ha hb
    exact hdom a ha b hb (by simpa using h1) (by simpa using h2)
  · intro st ev d n I1 I2 pr htag hsnc
    unfold handleEvent
    dsimp only
    unfold tagsStrictlyBefore
    rw [if_neg (by simp [isTagOf])]
    rw [findMatchingTriggers_trackEvent]
    refine snc_checker I1 I2 _ (processTriggers_snc I1 I2 evalC _ _ _ ?_)
    rw [findMatchingTriggers_eq]
    refine snc_sort_stable _ _ pr _ ?_ (snc_filter _ hsnc)
    intro x hx htx
    exact htag x (List.mem_of_mem_filter hx) htx
  · intro st ev d n t1 hmem hone hdeb hcond hfired
    unfold handleEvent
    dsimp only
    rw [List.countP_cons_of_neg _ _ (by simp [isActionOf])]
    rw [findMatchingTriggers_trackEvent]
    exact processTriggers_count_actions evalC _ _ _ t1 hmem hone hdeb hcond
      hfired

/-- Witness for C5 (amended) at a concrete input: a priority-10 trigger and
a priority-0 trigger on the same event both fire, the higher priority one's
events all precede the lower's, and the higher priority trigger's single
action is executed exactly once. -/
theorem C5_priority_ordering_witness :
    tagsStrictlyBefore "hi" "lo"
      (handleEvent (fun _ _ => false) (fun _ _ => true)
        (registerDef
          (⟨"lo", none, ["e"], none, [2], false, 0, 0, true, none⟩ :
            Trigger Unit Nat)
          (registerDef
            (⟨"hi", none, ["e"], none, [1], false, 10, 0, true, none⟩ :
              Trigger Unit Nat)
            (engineStart (TriggerEngine.init none))) :
          EngineState Unit Nat Unit) "e" () 0).2 = true ∧
    (handleEvent (fun _ _ => false) (fun _ _ => true)
      (registerDef
        (⟨"lo", none, ["e"], none, [2], false, 0, 0, true, none⟩ :
          Trigger Unit Nat)
        (registerDef
          (⟨"hi", none, ["e"], none, [1], false, 10, 0, true, none⟩ :
            Trigger Unit Nat)
          (engineStart (TriggerEngine.init none))) :
        EngineState Unit Nat Unit) "e" () 0).2.countP (isActionOf "hi") = 1 := by
  constructor
  · exact (C5_priority_ordering (fun _ _ => false) (fun _ _ => true)).1
      (registerDef
        (⟨"lo", none, ["e"], none, [2], false, 0, 0, true, none⟩ :
          Trigger Unit Nat)
        (registerDef
          (⟨"hi", none, ["e"], none, [1], false, 10, 0, true, none⟩ :
            Trigger Unit Nat)
          (engineStart (TriggerEngine.init none))))
      "e" () 0 "hi" "lo" (by decide)
  · have h := (C5_priority_ordering (fun _ _ => false) (fun _ _ => true)).2.2
      (registerDef
        (⟨"lo", none, ["e"], none, [2], false, 0, 0, true, none⟩ :
          Trigger Unit Nat)
        (registerDef
          (⟨"hi", none, ["e"], none, [1], false, 10, 0, true, none⟩ :
            Trigger Unit Nat)
          (engineStart (TriggerEngine.init none))))
      "e" () 0
      (⟨"hi", none, ["e"], none, [1], false, 10, 0, true, none⟩ :
        Trigger Unit Nat)
      (by decide) (by decide) rfl rfl (by decide)
    simpa using h


/- ===========================================================================
   Scenario Orchestrator (ScenarioManagerFeature, ScenarioManager.js)
   =========================================================================== -/

/-- JS truthiness test on a modelled value (NaN is not modelled). -/
def jsFalsy (v : JSVal) : Bool :=
  match v with
  | .null => true
  | .undefined => true
  | .bool b => !b
  | .num n => n == 0
  | .str s => s == ""
  | .obj _ => false

/-- Loop of ScenarioManagerFeature.setState (ScenarioManager.js:565-577):
walk the path, creating an empty object for each missing intermediate
segment, and assign the final segment.  The walk applies the JS in-operator
and property assignment, both of which throw a TypeError when the current
value is a primitive (the feature runs in strict mode); that outcome is
none.  Existing keys keep their position, new keys are appended (JS
own-property insertion order). -/
def setPath (v : JSVal) (parts : List String) (value : JSVal) : Option JSVal :=
  match parts with
  | [] => none
  | [k] =>
      match v with
      | .obj fields => some (.obj (alistSet fields k value))
      | _ => none
  | k :: rest =>
      match v with
      | .obj fields =>
          let child := (alistLookup fields k).getD (.obj [])
          match setPath child rest value with
          | some child' => some (.obj (alistSet fields k child'))
          | none => none
      | _ => none

/-- ScenarioManagerFeature.setState's effect on the variable map
(ScenarioManager.js:565-577): split the path on dots, then walk-and-assign. -/
def setStateVar (state : JSVal) (path : String) (value : JSVal) : Option JSVal :=
  setPath state (splitDot path) value

/-- The manager-visible part of the action language executed by
ActionExecutor.  setVar and modifyVar are the state actions setState and
modifyState (ActionExecutor.js:451-513), which write through
context.scenario into the manager's variable map; advanceStage, complete
and fail are the scenario flow actions (ActionExecutor.js:541-576), which
re-enter the manager; conditional and repeatA recurse into executeSequence
(control actions); every other handler (file, app, UI, audio, event,
achievement, ...) touches only collaborator subsystems and is abstracted as
ext with an identifying tag.  modifyVar's arithmetic switch enters the
model as the function argument f applied to the current value after the
JS current-or-zero coercion. -/
inductive SAction (Cond : Type) where
  | setVar (path : String) (value : JSVal) (persist : Bool)
  | modifyVar (path : String) (f : JSVal → JSVal)
  | advanceStage (stageId : String)
  | complete
  | fail (reason : String)
  | conditional (c : Cond) (thenA elseA : List (SAction Cond))
  | repeatA (times : Nat) (actions : List (SAction Cond))
  | ext (tag : String)

/-- A hint entry of a stage (delay in milliseconds; a missing delay falls
back to the scenario config, via JS or-chaining, so an explicit 0 also
falls back). -/
structure Hint where
  delay : Option Nat
  message : String

/-- A loader-normalized stage (ScenarioLoader.normalizeStage,
SemanticEvents.js): lifecycle hooks are reduced to their action lists. -/
structure Stage (Cond : Type) where
  id : String
  name : String
  isInitialStage : Bool
  onEnter : List (SAction Cond)
  onExit : List (SAction Cond)
  hints : List Hint
  triggers : List (Trigger Cond (SAction Cond))

/-- Scenario configuration after the DEFAULT_CONFIG merge
(SemanticEvents.js DEFAULT_CONFIG). -/
structure ScenarioConfig where
  allowSkip : Bool
  showProgress : Bool
  autoSave : Bool
  hintDelay : Nat
  maxHints : Nat
  pauseOnBlur : Bool

/-- DEFAULT_CONFIG (SemanticEvents.js). -/
def defaultConfig : ScenarioConfig :=
  ⟨false, true, true, 30000, 3, false⟩

/-- A loader-normalized scenario definition as held in
ScenarioManagerFeature.scenario. -/
structure Scenario (Cond : Type) where
  id : String
  name : String
  version : String
  stages : List (Stage Cond)
  globalTriggers : List (Trigger Cond (SAction Cond))
  vars : List (String × JSVal)  -- source field name: variables
  config : ScenarioConfig
  onStart : List (SAction Cond)
  onComplete : List (SAction Cond)
  onFail : List (SAction Cond)
  onAbort : List (SAction Cond)

/-- A pending hint timer (the setTimeout installed by setupHintTimer,
ScenarioManager.js:612-627): message and index of the hint it would show
and the delay it was armed with. -/
structure HintPending where
  message : String
  index : Nat
  delay : Nat

/-- State of the ScenarioManagerFeature: the loaded scenario, the engine
instance (null outside a run), the variable map this.state, and the
this.runtime record (ScenarioManager.js:30-45). -/
structure MgrState (Cond : Type) where
  scenario : Option (Scenario Cond)
  triggerEngine : Option (EngineState Cond (SAction Cond) JSVal)
  state : JSVal
  isRunning : Bool
  isPaused : Bool
  currentStageId : Option String
  completedStages : List String
  startTime : Option Nat
  stageStartTime : Option Nat
  hintsUsed : Nat
  hintTimer : Option HintPending

/-- Initial manager state (constructor, ScenarioManager.js:30-45). -/
def MgrState.init {Cond : Type} : MgrState Cond :=
  ⟨none, none, .obj [], false, false, none, [], none, none, 0, none⟩

/-- Observable orchestrator event: an emitScenarioEvent/EventBus.emit
notification by name, the execution of one action, or the truncation marker
of the fuel-bounded interpreter. -/
inductive MgrEv (Cond : Type) where
  | emit (name : String)
  | actionRun (a : SAction Cond)
  | fuelOut

/-- One orchestrator entry point or executor construct: a single action, an
executeSequence call, the unrolling of a repeat action, and the manager
methods loadScenario (successful loader result), startScenario,
stopScenario, enterStage, exitStage, advanceToStage, completeScenario and
failScenario. -/
inductive MgrTask (Cond : Type) where
  | act (a : SAction Cond)
  | seq (actions : List (SAction Cond))
  | rep (times : Nat) (actions : List (SAction Cond))
  | loadTask (sc : Scenario Cond)
  | startTask
  | stopTask (abort : Bool)
  | enterTask (stageId : String)
  | exitTask (stageId : String)
  | advanceTask (stageId : String)
  | completeTask
  | failTask (reason : String)

/-- JS Set.add on the completed-stage set, preserving insertion order. -/
def addCompleted (l : List String) (x : String) : List String :=
  if l.contains x then l else l ++ [x]

/-- ScenarioManagerFeature.setupHintTimer (ScenarioManager.js:612-627): no
timer when the stage has no hints or the hint budget is exhausted (JS
!maxHints is also true for 0); otherwise arm a timer for the next hint,
with the stage-local delay or the config default (or-chaining, so delay 0
falls back too). -/
def setupHint {Cond : Type} (cfg : ScenarioConfig) (stage : Stage Cond)
    (hintsUsed : Nat) : Option HintPending :=
  if stage.hints.isEmpty then none
  else if cfg.maxHints = 0 || decide (cfg.maxHints ≤ hintsUsed) then none
  else
    let idx := min hintsUsed (stage.hints.length - 1)
    match stage.hints.get? idx with
    | some h =>
        some ⟨h.message, idx,
          match h.delay with
          | some d => if d = 0 then cfg.hintDelay else d
          | none => cfg.hintDelay⟩
    | none => none

/-- ScenarioManagerFeature.setState as a public method
(ScenarioManager.js:565-586): mutate the variable map and emit
STATE_CHANGED; a TypeError from the walk propagates to the caller (none). -/
def mgrSetState {Cond : Type} (m : MgrState Cond) (path : String)
    (value : JSVal) : Option (MgrState Cond × List (MgrEv Cond)) :=
  match setStateVar m.state path value with
  | some s' => some ({ m with state := s' }, [.emit "scenario:state:changed"])
  | none => none

/-- Fuel-bounded interpreter for the orchestrator.  Each task is translated
statement by statement from ScenarioManager.js / ActionExecutor.js; every
recursive call (a nested executeSequence, a flow action re-entering the
manager, or a manager method invoking another) consumes one unit of fuel,
and exhaustion is marked fuelOut (the source can recurse unboundedly
through flow actions, e.g. a stage whose onEnter advances to itself).
Await points are sequenced in program order.  Not modelled: log/warn/error
calls, durations passed in event payloads, StateManager persistence (an
external durable store), the taskbar indicator (host UI, gated on manager
config), and pause/resume.  Returns the final state and the list of
observable events in order. -/
def runMgr {Cond : Type} (evalA : Cond → MgrState Cond → Bool) (now : Nat) :
    Nat → MgrTask Cond → MgrState Cond → MgrState Cond × List (MgrEv Cond)
  | 0, _, m => (m, [MgrEv.fuelOut])
  | fuel + 1, task, m =>
    match task with
    | .act a =>
      match a with
      | .setVar path v persist =>
          -- ActionExecutor setState (451-463): write via context.scenario;
          -- persistence goes to the external StateManager (not modelled)
          (match setStateVar m.state path v with
           | some s' =>
               ({ m with state := s' },
                 [MgrEv.actionRun (.setVar path v persist),
                  .emit "scenario:state:changed"])
           | none => (m, [MgrEv.actionRun (.setVar path v persist)]))
      | .modifyVar path f =>
          -- ActionExecutor modifyState (468-513): current-or-zero, apply
          -- the operation, write back through context.scenario.setState
          let cur := getState m.state (some path)
          let cur := if jsFalsy cur then JSVal.num 0 else cur
          (match setStateVar m.state path (f cur) with
           | some s' =>
               ({ m with state := s' },
                 [MgrEv.actionRun (.modifyVar path f),
                  .emit "scenario:state:changed"])
           | none => (m, [MgrEv.actionRun (.modifyVar path f)]))
      | .advanceStage sid =>
          let p := runMgr evalA now fuel (.advanceTask sid) m
          (p.1, MgrEv.actionRun (.advanceStage sid) :: p.2)
      | .complete =>
          let p := runMgr evalA now fuel .completeTask m
          (p.1, MgrEv.actionRun .complete :: p.2)
      | .fail r =>
          let p := runMgr evalA now fuel (.failTask r) m
          (p.1, MgrEv.actionRun (.fail r) :: p.2)
      | .conditional c thenA elseA =>
          -- conditional handler: evaluate, then run the matching branch
          -- (an absent branch is the empty list)
          if evalA c m then
            let p := runMgr evalA now fuel (.seq thenA) m
            (p.1, MgrEv.actionRun (.conditional c thenA elseA) :: p.2)
          else
            let p := runMgr evalA now fuel (.seq elseA) m
            (p.1, MgrEv.actionRun (.conditional c thenA elseA) :: p.2)
      | .repeatA times acts =>
          let p := runMgr evalA now fuel (.rep times acts) m
          (p.1, MgrEv.actionRun (.repeatA times acts) :: p.2)
      | .ext tag => (m, [MgrEv.actionRun (.ext tag)])
    | .seq acts =>
      -- executeSequence (ActionExecutor.js:118-134) under a manager-built
      -- context, which carries no stopOnFailure: every action runs
      match acts with
      | [] => (m, [])
      | a :: rest =>
          let p := runMgr evalA now fuel (.act a) m
          let q := runMgr evalA now fuel (.seq rest) p.1
          (q.1, p.2 ++ q.2)
    | .rep times acts =>
      match times with
      | 0 => (m, [])
      | t + 1 =>
          let p := runMgr evalA now fuel (.seq acts) m
          let q := runMgr evalA now fuel (.rep t acts) p.1
          (q.1, p.2 ++ q.2)
    | .loadTask sc =>
      -- loadScenario success path (ScenarioManager.js:183-229): stop a
      -- running scenario, install the loaded definition, seed the variable
      -- map from {...scenario.variables}, emit LOADED
      let p := if m.isRunning then runMgr evalA now fuel (.stopTask false) m
               else (m, [])
      ({ p.1 with scenario := some sc, state := JSVal.obj sc.vars },
        p.2 ++ [MgrEv.emit "scenario:loaded"])
    | .startTask =>
      -- startScenario (ScenarioManager.js:235-295)
      match m.scenario with
      | none => (m, [])
      | some sc =>
        if m.isRunning then (m, [])
        else
          let e0 : EngineState Cond (SAction Cond) JSVal :=
            TriggerEngine.init m.currentStageId
          let e1 := registerDefs sc.globalTriggers e0
          let e2 := engineStart e1
          let m1 := { m with
            triggerEngine := some e2
            isRunning := true
            isPaused := false
            startTime := some now
            completedStages := []
            hintsUsed := 0 }
          let p := runMgr evalA now fuel (.seq sc.onStart) m1
          let q := match sc.stages.find? (fun s => s.isInitialStage) with
            | some s0 => runMgr evalA now fuel (.enterTask s0.id) p.1
            | none => (p.1, [])
          (q.1, p.2 ++ [MgrEv.emit "scenario:started"] ++ q.2)
    | .stopTask abort =>
      -- stopScenario (ScenarioManager.js:301-331)
      if !m.isRunning then (m, [])
      else
        let m1 := { m with triggerEngine := none }
        let p := match m1.scenario with
          | some sc =>
              if abort && !sc.onAbort.isEmpty then
                let r := runMgr evalA now fuel (.seq sc.onAbort) m1
                (r.1, r.2 ++ [MgrEv.emit "scenario:aborted"])
              else (m1, ([] : List (MgrEv Cond)))
          | none => (m1, [])
        let m2 := { p.1 with isRunning := false, isPaused := false, currentStageId := none }
        (m2, p.2)
    | .enterTask sid =>
      -- enterStage (ScenarioManager.js:367-416); only ever invoked with a
      -- loaded scenario in the source (a null scenario would throw there)
      match m.scenario with
      | none => (m, [])
      | some sc =>
        match sc.stages.find? (fun s => s.id == sid) with
        | none => (m, [])
        | some stage =>
          let p := match m.currentStageId with
            | some cs => runMgr evalA now fuel (.exitTask cs) m
            | none => (m, [])
          let m2 := { p.1 with
            currentStageId := some sid
            stageStartTime := some now }
          let eng := m2.triggerEngine.map
            (fun e => registerDefs
              (stage.triggers.map (fun t => { t with stageId := some sid }))
              { e with currentStageId := some sid })
          let m3 := { m2 with triggerEngine := eng }
          let q := runMgr evalA now fuel (.seq stage.onEnter) m3
          let m5 := { q.1 with
            hintTimer := setupHint sc.config stage q.1.hintsUsed }
          (m5, p.2 ++ q.2 ++ [MgrEv.emit "scenario:stage:entered"])
    | .exitTask sid =>
      -- exitStage (ScenarioManager.js:422-443): clear the hint timer, run
      -- onExit, and clear the stage's triggers from the engine last
      match m.scenario with
      | none => (m, [])
      | some sc =>
        match sc.stages.find? (fun s => s.id == sid) with
        | none => (m, [])
        | some stage =>
          let m1 := { m with hintTimer := none }
          let p := runMgr evalA now fuel (.seq stage.onExit) m1
          ({ p.1 with
              triggerEngine := p.1.triggerEngine.map (clearStage sid) },
            p.2)
    | .advanceTask sid =>
      -- advanceToStage (ScenarioManager.js:449-462)
      let p := match m.currentStageId with
        | some cs =>
            ({ m with completedStages := addCompleted m.completedStages cs },
              [MgrEv.emit "scenario:stage:completed"])
        | none => (m, [])
      let q := runMgr evalA now fuel (.enterTask sid) p.1
      (q.1, p.2 ++ q.2)
    | .completeTask =>
      -- completeScenario (ScenarioManager.js:467-505): guard on isRunning,
      -- mark the final stage, run onComplete, emit COMPLETED, persist to
      -- StateManager (external), stop
      if !m.isRunning then (m, [])
      else
        let m1 := match m.currentStageId with
          | some cs =>
              { m with completedStages := addCompleted m.completedStages cs }
          | none => m
        let p := match m1.scenario with
          | some sc =>
              if !sc.onComplete.isEmpty then
                runMgr evalA now fuel (.seq sc.onComplete) m1
              else (m1, ([] : List (MgrEv Cond)))
          | none => (m1, [])
        let q := runMgr evalA now fuel (.stopTask false) p.1
        (q.1, p.2 ++ [MgrEv.emit "scenario:completed"] ++ q.2)
    | .failTask _ =>
      -- failScenario (ScenarioManager.js:511-539): guard on isRunning, run
      -- onFail, emit FAILED, stop
      if !m.isRunning then (m, [])
      else
        let p := match m.scenario with
          | some sc =>
              if !sc.onFail.isEmpty then
                runMgr evalA now fuel (.seq sc.onFail) m
              else (m, ([] : List (MgrEv Cond)))
          | none => (m, [])
        let q := runMgr evalA now fuel (.stopTask false) p.1
        (q.1, p.2 ++ [MgrEv.emit "scenario:failed"] ++ q.2)


/- ===========================================================================
   Scenario loader normalization (ScenarioLoader, SemanticEvents.js)
   =========================================================================== -/

/-- ScenarioLoader.normalizeTrigger (SemanticEvents.js): loader-side trigger
defaults.  Unlike the engine-side destructuring defaults of registerTrigger,
once and enabled default to true (trigger.once !== false); fresh stands for
the generated trigger id (Date.now plus random suffix); stageId is the
parent stage's raw id (null for global triggers).  The string-shorthand
action form is already expanded in the modelled action type. -/
def loaderNormalizeTrigger {Cond Act : Type} (fresh : String)
    (stageId : Option String) (r : RawTrigger Cond Act) : Trigger Cond Act :=
  { id := r.id.getD fresh
    event := r.event
    events := r.events.getD (match r.event with | some e => [e] | none => [])
    conditions := r.conditions
    actions := r.actions.getD []
    once := r.once != some false
    priority := r.priority.getD 0
    debounce := r.debounce.getD 0
    enabled := r.enabled != some false
    stageId := stageId }

/-- Raw stage object as it appears in a scenario definition before
ScenarioLoader.normalizeStage; a missing field is none.  isInitialStage
records the truthiness of the raw flag (stage.isInitialStage || false);
lifecycle hooks are already reduced to their action lists
(normalizeLifecycleHook maps absent/array/object forms to an action
list). -/
structure RawStage (Cond : Type) where
  id : Option String := none
  name : Option String := none
  isInitialStage : Bool := false
  onEnter : List (SAction Cond) := []
  onExit : List (SAction Cond) := []
  hints : Option (List Hint) := none
  triggers : List (RawTrigger Cond (SAction Cond)) := []

/-- Trigger list of normalizeStage: each raw trigger is normalized with a
fresh generated id (fresh gives the id for the trigger at each position)
and the parent stage's raw id. -/
def normTriggersAux {Cond : Type} (fresh : Nat → String)
    (stageId : Option String) :
    Nat → List (RawTrigger Cond (SAction Cond)) →
    List (Trigger Cond (SAction Cond))
  | _, [] => []
  | i, r :: rest =>
      loaderNormalizeTrigger (fresh i) stageId r ::
        normTriggersAux fresh stageId (i + 1) rest

/-- ScenarioLoader.normalizeStage (SemanticEvents.js): id and name defaults
derived from the stage index, flag truthiness, hooks flattened, non-array
hints replaced by [], triggers normalized against the raw stage id. -/
def normalizeStage {Cond : Type} (fresh : Nat → String) (index : Nat)
    (s : RawStage Cond) : Stage Cond :=
  { id := s.id.getD ("stage-" ++ toString index)
    name := s.name.getD ("Stage " ++ toString (index + 1))
    isInitialStage := s.isInitialStage
    onEnter := s.onEnter
    onExit := s.onExit
    hints := s.hints.getD []
    triggers := normTriggersAux fresh s.id 0 s.triggers }

/-- The indexed map of ScenarioLoader.normalize over the stages array. -/
def normStagesAux {Cond : Type} (fresh : Nat → Nat → String) :
    Nat → List (RawStage Cond) → List (Stage Cond)
  | _, [] => []
  | i, s :: rest =>
      normalizeStage (fresh i) i s :: normStagesAux fresh (i + 1) rest

/-- Stage portion of ScenarioLoader.normalize (SemanticEvents.js): map
normalizeStage over the array with its index, then, when no stage carries
the initial flag and the array is non-empty, set the flag on the first
element. -/
def normalizeStages {Cond : Type} (fresh : Nat → Nat → String)
    (raw : List (RawStage Cond)) : List (Stage Cond) :=
  let ss := normStagesAux fresh 0 raw
  if ss.all (fun s => !s.isInitialStage) then
    match ss with
    | [] => []
    | s0 :: rest => { s0 with isInitialStage := true } :: rest
  else ss

/-- Bool test for a named emission in an orchestrator trace. -/
def isEmitOf {Cond : Type} (name : String) : MgrEv Cond → Bool
  | .emit n => n == name
  | _ => false

/-- Actions whose handler touches neither the runtime flags nor the
scenario slot: the state actions and the collaborator-only handlers
(everything except the flow and control actions). -/
def simpleAct {Cond : Type} : SAction Cond → Bool
  | .setVar _ _ _ => true
  | .modifyVar _ _ => true
  | .ext _ => true
  | _ => false


theorem clearStage_excludes {Cond Act Data : Type} (A : String)
    (st : EngineState Cond Act Data) :
    ∀ t ∈ allTriggerList (clearStage A st), t.stageId ≠ some A := by
  intro t ht
  unfold allTriggerList clearStage at ht
  rcases List.mem_append.mp ht with h | h
  · rcases List.mem_flatMap.mp h with ⟨pr, hpr, htpr⟩
    rcases List.mem_map.mp hpr with ⟨pr0, _, hmap⟩
    subst hmap
    have := (List.mem_filter.mp htpr).2
    simpa using this
  · have := (List.mem_filter.mp h).2
    simpa using this

/-- C6: the claim that a trigger registered with a non-null stageId never
fires while the current stage differs from that stageId is refuted on the
debounce path: a stage-A trigger with positive debounce qualifies while A
is current and its pending timer is neither cancelled when the stage is
left (clearStage only filters the pattern buckets and the global list,
TriggerEngine.js:575-584) nor stage-checked at expiry (the setTimeout
callback calls fireTrigger directly, TriggerEngine.js:486-489), so it fires
while the current stage is B — even after the stage's triggers were removed
from the engine. -/
theorem C6_counterexample :
    (let t : Trigger Unit Nat :=
       ⟨"t", none, ["e"], none, [7], false, 0, 500, true, some "A"⟩
     let st0 : EngineState Unit Nat Unit :=
       registerDef t (engineStart (TriggerEngine.init (some "A")))
     let st1 := (publishEvent (fun _ _ => false) (fun _ _ => true)
       st0 "e" () 0).1
     let st2 := clearStage "A" { st1 with currentStageId := some "B" }
     st2.currentStageId = some "B" ∧ allTriggerList st2 = [] ∧
       (expireTimer st2 "t").2.countP (isFiredOf "t") = 1 ∧
       (expireTimer st2 "t").2.countP (isActionOf "t") = 1) := by
  decide

/-- C6 (amended): a trigger with a non-null stageId is excluded from the
candidate set of every handled event whenever the engine's current stage
differs from its stageId (the stage filter of findMatchingTriggers,
TriggerEngine.js:404-416), even if its pattern and condition match; and
exiting a stage removes every trigger carrying that stage's id from the
engine's pattern buckets and global list (exitStage runs clearStage last,
ScenarioManager.js:422-443).  Pending debounce timers are outside both
mechanisms (see the counterexample). -/
theorem C6_stage_scoping {Cond Act Data : Type} (rm : String → String → Bool)
    (evalA : Cond → MgrState Cond → Bool) (now : Nat) :
    (∀ (st : EngineState Cond Act Data) (A e : String) (t : Trigger Cond Act),
        t.stageId = some A → st.currentStageId ≠ some A →
        t ∉ findMatchingTriggers rm st e) ∧
    (∀ (m : MgrState Cond) (sc : Scenario Cond) (A : String)
        (stage : Stage Cond) (fuel : Nat),
        m.scenario = some sc →
        sc.stages.find? (fun s => s.id == A) = some stage →
        ∀ e', (runMgr evalA now (fuel + 1) (.exitTask A) m).1.triggerEngine =
            some e' →
          ∀ t ∈ allTriggerList e', t.stageId ≠ some A) := by
  constructor
  · intro st A e t hstage hcur hmem
    unfold findMatchingTriggers at hmem
    rw [mem_sortByPriorityDesc] at hmem
    have hfil := (List.mem_filter.mp hmem).2
    have hok : stageOk t st.currentStageId = true := by
      cases h1 : t.enabled <;> cases h2 : stageOk t st.currentStageId <;>
        simp [h1, h2] at hfil ⊢
    unfold stageOk at hok
    rw [hstage] at hok
    exact hcur (by simpa using (beq_iff_eq.mp hok).symm)
  · intro m sc A stage fuel hsc hfind e' he' t ht
    simp only [runMgr, hsc, hfind] at he'
    rcases Option.map_eq_some'.mp he' with ⟨e0, _, he0⟩
    subst he0
    exact clearStage_excludes A e0 t ht

/-- Concrete instantiation of C6_stage_scoping: a stage-A trigger is not a
candidate while the stage is B, and after exiting stage A the engine holds
no stage-A trigger. -/
theorem C6_stage_scoping_witness :
    ((⟨"t", none, ["e"], none, ([] : List Nat), false, 0, 0, true,
        some "A"⟩ : Trigger Unit Nat) ∉
      findMatchingTriggers (fun _ _ => false)
        (TriggerEngine.init (some "B") : EngineState Unit Nat Unit) "e") ∧
    (∀ e', (runMgr (fun (_ : Unit) (_ : MgrState Unit) => true) 0 5
          (.exitTask "A")
          { MgrState.init with
            scenario := some
              ⟨"s", "s", "1", [⟨"A", "A", true, [], [], [], []⟩], [], [],
                defaultConfig, [], [], [], []⟩ }).1.triggerEngine = some e' →
      ∀ t ∈ allTriggerList e', t.stageId ≠ some "A") := by
  constructor
  · exact (@C6_stage_scoping Unit Nat Unit (fun _ _ => false)
      (fun _ _ => true) 0).1
      (TriggerEngine.init (some "B"))
      "A" "e" ⟨"t", none, ["e"], none, [], false, 0, 0, true, some "A"⟩
      rfl (by decide)
  · exact (@C6_stage_scoping Unit Nat Unit (fun _ _ => false)
      (fun _ _ => true) 0).2
      _ _ "A" ⟨"A", "A", true, [], [], [], []⟩ 4 rfl rfl


theorem runMgr_act_simple {Cond : Type} (evalA : Cond → MgrState Cond → Bool)
    (now : Nat) (f : Nat) (a : SAction Cond) (m : MgrState Cond)
    (ha : simpleAct a = true) :
    (runMgr evalA now f (.act a) m).1.isRunning = m.isRunning ∧
    (runMgr evalA now f (.act a) m).1.scenario = m.scenario ∧
    (runMgr evalA now f (.act a) m).2.countP
      (isEmitOf "scenario:completed") = 0 := by
  cases f with
  | zero => simp [runMgr, isEmitOf]
  | succ f =>
      cases a with
      | setVar path v persist =>
          cases h : setStateVar m.state path v with
          | none => simp [runMgr, h, isEmitOf, List.countP_cons]
          | some s' => simp [runMgr, h, isEmitOf, List.countP_cons]
      | modifyVar path g =>
          cases h : setStateVar m.state path
              (g (if jsFalsy (getState m.state (some path)) then JSVal.num 0
                  else getState m.state (some path))) with
          | none => simp [runMgr, h, isEmitOf, List.countP_cons]
          | some s' => simp [runMgr, h, isEmitOf, List.countP_cons]
      | ext tag => simp [runMgr, isEmitOf, List.countP_cons]
      | advanceStage sid => simp [simpleAct] at ha
      | complete => simp [simpleAct] at ha
      | fail r => simp [simpleAct] at ha
      | conditional c u v => simp [simpleAct] at ha
      | repeatA n as => simp [simpleAct] at ha

theorem runMgr_seq_simple {Cond : Type} (evalA : Cond → MgrState Cond → Bool)
    (now : Nat) :
    ∀ (f : Nat) (acts : List (SAction Cond)) (m : MgrState Cond),
      (∀ a ∈ acts, simpleAct a = true) →
      (runMgr evalA now f (.seq acts) m).1.isRunning = m.isRunning ∧
      (runMgr evalA now f (.seq acts) m).1.scenario = m.scenario ∧
      (runMgr evalA now f (.seq acts) m).2.countP
        (isEmitOf "scenario:completed") = 0 := by
  intro f
  induction f with
  | zero => intro acts m _; simp [runMgr, isEmitOf]
  | succ f ih =>
      intro acts m hall
      cases acts with
      | nil => simp [runMgr]
      | cons a rest =>
          have ha := hall a (by simp)
          have hrest : ∀ x ∈ rest, simpleAct x = true := by
            intro x hx; exact hall x (by simp [hx])
          have h1 := runMgr_act_simple evalA now f a m ha
          have h2 := ih rest (runMgr evalA now f (.act a) m).1 hrest
          simp only [runMgr]
          refine ⟨?_, ?_, ?_⟩
          · rw [h2.1, h1.1]
          · rw [h2.2.1, h1.2.1]
          · rw [List.countP_append, h1.2.2, h2.2.2]

theorem runMgr_stop_plain {Cond : Type} (evalA : Cond → MgrState Cond → Bool)
    (now : Nat) (f : Nat) (m : MgrState Cond) (h : m.isRunning = true) :
    runMgr evalA now (f + 1) (.stopTask false) m =
      ({ m with triggerEngine := none, isRunning := false, isPaused := false, currentStageId := none }, []) := by
  cases hsc : m.scenario with
  | none => simp [runMgr, h, hsc]
  | some sc => simp [runMgr, h, hsc]

theorem runMgr_complete_unfold_none {Cond : Type}
    (evalA : Cond → MgrState Cond → Bool) (now : Nat) (f : Nat)
    (m : MgrState Cond) (hrun : m.isRunning = true)
    (hcs : m.currentStageId = none) :
    runMgr evalA now (f + 2) .completeTask m =
      (let p := match m.scenario with
        | some sc =>
            if !sc.onComplete.isEmpty then
              runMgr evalA now (f + 1) (.seq sc.onComplete) m
            else (m, ([] : List (MgrEv Cond)))
        | none => (m, [])
       let q := runMgr evalA now (f + 1) (.stopTask false) p.1
       (q.1, p.2 ++ [MgrEv.emit "scenario:completed"] ++ q.2)) := by
  have h2 : (f : Nat) + 2 = (f + 1) + 1 := rfl
  rw [h2]
  conv_lhs => unfold runMgr
  rw [hrun, hcs]
  rfl

theorem runMgr_complete_unfold_cs {Cond : Type}
    (evalA : Cond → MgrState Cond → Bool) (now : Nat) (f : Nat)
    (m : MgrState Cond) (cs : String) (hrun : m.isRunning = true)
    (hcs : m.currentStageId = some cs) :
    runMgr evalA now (f + 2) .completeTask m =
      (let m1 := { m with
        completedStages := addCompleted m.completedStages cs }
       let p := match m1.scenario with
        | some sc =>
            if !sc.onComplete.isEmpty then
              runMgr evalA now (f + 1) (.seq sc.onComplete) m1
            else (m1, ([] : List (MgrEv Cond)))
        | none => (m1, [])
       let q := runMgr evalA now (f + 1) (.stopTask false) p.1
       (q.1, p.2 ++ [MgrEv.emit "scenario:completed"] ++ q.2)) := by
  have h2 : (f : Nat) + 2 = (f + 1) + 1 := rfl
  rw [h2]
  conv_lhs => unfold runMgr
  rw [hrun, hcs]
  rfl

/-- C9: with no run active (isRunning false), completeScenario and
failScenario return at the guard (ScenarioManager.js:468, 512) without
executing any lifecycle action list, emitting any notification, or touching
any state; and since completing a run stops it (isRunning becomes false), a
second completeScenario call is a no-op, so the onComplete action list runs
exactly once for a run even if the completing trigger fires again.  The
second conjunct assumes the onComplete actions are state or
collaborator-only actions (not themselves scenario flow actions). -/
theorem C9_complete_guard {Cond : Type} (evalA : Cond → MgrState Cond → Bool)
    (now : Nat) :
    (∀ (m : MgrState Cond) (f : Nat) (reason : String), m.isRunning = false →
        runMgr evalA now (f + 1) .completeTask m = (m, []) ∧
        runMgr evalA now (f + 1) (.failTask reason) m = (m, [])) ∧
    (∀ (m : MgrState Cond) (sc : Scenario Cond) (f g : Nat),
        m.isRunning = true → m.scenario = some sc →
        (∀ a ∈ sc.onComplete, simpleAct a = true) →
        (runMgr evalA now (f + 2) .completeTask m).1.isRunning = false ∧
        (runMgr evalA now (f + 2) .completeTask m).2.countP
            (isEmitOf "scenario:completed") = 1 ∧
        runMgr evalA now (g + 1) .completeTask
            (runMgr evalA now (f + 2) .completeTask m).1 =
          ((runMgr evalA now (f + 2) .completeTask m).1, [])) := by
  have hguard : ∀ (m : MgrState Cond) (f : Nat) (reason : String),
      m.isRunning = false →
      runMgr evalA now (f + 1) .completeTask m = (m, []) ∧
      runMgr evalA now (f + 1) (.failTask reason) m = (m, []) := by
    intro m f reason h
    constructor <;> simp [runMgr, h]
  refine ⟨hguard, ?_⟩
  intro m sc f g hrun hsc hsimple
  have hbranch : ∀ m1 : MgrState Cond, m1.isRunning = true →
      m1.scenario = some sc →
      ((let p := match m1.scenario with
          | some sc =>
              if !sc.onComplete.isEmpty then
                runMgr evalA now (f + 1) (.seq sc.onComplete) m1
              else (m1, ([] : List (MgrEv Cond)))
          | none => (m1, [])
        let q := runMgr evalA now (f + 1) (.stopTask false) p.1
        (q.1, p.2 ++ [MgrEv.emit "scenario:completed"] ++
          q.2)).1.isRunning = false ∧
       (let p := match m1.scenario with
          | some sc =>
              if !sc.onComplete.isEmpty then
                runMgr evalA now (f + 1) (.seq sc.onComplete) m1
              else (m1, ([] : List (MgrEv Cond)))
          | none => (m1, [])
        let q := runMgr evalA now (f + 1) (.stopTask false) p.1
        (q.1, p.2 ++ [MgrEv.emit "scenario:completed"] ++
          q.2)).2.countP (isEmitOf "scenario:completed") = 1) := by
    intro m1 h1run h1sc
    rw [h1sc]
    dsimp only
    by_cases hemp : sc.onComplete.isEmpty
    · simp only [hemp, Bool.not_true, Bool.false_eq_true, if_false]
      rw [runMgr_stop_plain evalA now f m1 h1run]
      simp [isEmitOf, List.countP_cons]
    · have hemp' : (!sc.onComplete.isEmpty) = true := by simp [hemp]
      simp only [hemp', if_true]
      have hseq := runMgr_seq_simple evalA now (f + 1) sc.onComplete m1
        hsimple
      have hrun' : (runMgr evalA now (f + 1)
          (.seq sc.onComplete) m1).1.isRunning = true := by
        rw [hseq.1, h1run]
      rw [runMgr_stop_plain evalA now f _ hrun']
      refine ⟨rfl, ?_⟩
      rw [List.countP_append, List.countP_append, hseq.2.2]
      simp [isEmitOf, List.countP_cons]
  have key : (runMgr evalA now (f + 2) .completeTask m).1.isRunning = false ∧
      (runMgr evalA now (f + 2) .completeTask m).2.countP
        (isEmitOf "scenario:completed") = 1 := by
    cases hcs : m.currentStageId with
    | none =>
        rw [runMgr_complete_unfold_none evalA now f m hrun hcs]
        exact hbranch m hrun hsc
    | some cs =>
        rw [runMgr_complete_unfold_cs evalA now f m cs hrun hcs]
        exact hbranch
          { m with completedStages := addCompleted m.completedStages cs }
          hrun hsc
  exact ⟨key.1, key.2,
    (hguard (runMgr evalA now (f + 2) .completeTask m).1 g "x" key.1).1⟩

/-- Concrete instantiation of C9_complete_guard: on a fresh manager both
guards are no-ops, and completing a running manager stops it, emits
COMPLETED once, and makes a second completion a no-op. -/
theorem C9_complete_guard_witness :
    (runMgr (fun (_ : Unit) (_ : MgrState Unit) => true) 0 4 .completeTask
        MgrState.init = (MgrState.init, []) ∧
      runMgr (fun (_ : Unit) (_ : MgrState Unit) => true) 0 4
        (.failTask "r") MgrState.init = (MgrState.init, [])) ∧
    ((runMgr (fun (_ : Unit) (_ : MgrState Unit) => true) 0 5 .completeTask
        { MgrState.init with isRunning := true, scenario := some ⟨"s", "s", "1", [], [], [], defaultConfig, [], [], [], []⟩ }).1.isRunning = false ∧
     (runMgr (fun (_ : Unit) (_ : MgrState Unit) => true) 0 5 .completeTask
        { MgrState.init with isRunning := true, scenario := some ⟨"s", "s", "1", [], [], [], defaultConfig, [], [], [], []⟩ }).2.countP
       (isEmitOf "scenario:completed") = 1 ∧
     runMgr (fun (_ : Unit) (_ : MgrState Unit) => true) 0 7 .completeTask
        (runMgr (fun (_ : Unit) (_ : MgrState Unit) => true) 0 5
          .completeTask
          { MgrState.init with isRunning := true, scenario := some ⟨"s", "s", "1", [], [], [], defaultConfig, [], [], [], []⟩ }).1 =
      ((runMgr (fun (_ : Unit) (_ : MgrState Unit) => true) 0 5
          .completeTask
          { MgrState.init with isRunning := true, scenario := some ⟨"s", "s", "1", [], [], [], defaultConfig, [], [], [], []⟩ }).1, [])) := by
  constructor
  · exact (C9_complete_guard (fun (_ : Unit) (_ : MgrState Unit) => true)
      0).1 MgrState.init 3 "r" rfl
  · exact (C9_complete_guard (fun (_ : Unit) (_ : MgrState Unit) => true)
      0).2 _ _ 3 6 rfl rfl (by intro a ha; simp at ha)


/-- The engine's run-bookkeeping fields: the fired-once set, the event
history, the per-event counters and the pending debounce timers. -/
def bk {Cond Act Data : Type} (st : EngineState Cond Act Data) :
    List String × List (HistEntry Data) × List (String × Nat) ×
      List (String × (Trigger Cond Act × EvalCtx Data)) :=
  (st.firedTriggers, st.eventHistory, st.eventCounts, st.debounceTimers)

theorem bk_registerPattern {Cond Act Data : Type} (t : Trigger Cond Act)
    (st : EngineState Cond Act Data) (pat : String) :
    bk (registerPattern t st pat) = bk st := by
  unfold registerPattern
  split
  · rfl
  · split <;> rfl

theorem bk_foldl_registerPattern {Cond Act Data : Type}
    (t : Trigger Cond Act) :
    ∀ (pats : List String) (st : EngineState Cond Act Data),
      bk (pats.foldl (registerPattern t) st) = bk st := by
  intro pats
  induction pats with
  | nil => intro st; rfl
  | cons p rest ih =>
      intro st
      rw [List.foldl_cons, ih, bk_registerPattern]

theorem bk_registerDef {Cond Act Data : Type} (t : Trigger Cond Act)
    (st : EngineState Cond Act Data) :
    bk (registerDef t st) = bk st := by
  unfold registerDef
  exact bk_foldl_registerPattern t _ st

theorem bk_registerDefs {Cond Act Data : Type} :
    ∀ (ts : List (Trigger Cond Act)) (st : EngineState Cond Act Data),
      bk (registerDefs ts st) = bk st := by
  intro ts
  induction ts with
  | nil => intro st; rfl
  | cons t rest ih =>
      intro st
      unfold registerDefs at ih ⊢
      rw [List.foldl_cons, ih, bk_registerDef]

theorem bk_engineStart {Cond Act Data : Type}
    (st : EngineState Cond Act Data) : bk (engineStart st) = bk st := by
  unfold engineStart
  split <;> rfl

/-- C3: the claim that all Runtime State resets between two runs of the same
loaded scenario is refuted on the variable map: loadScenario seeds
this.state from the definition's variables (ScenarioManager.js:214), but
startScenario (ScenarioManager.js:235-295) never touches this.state, so a
value written during the first run survives stop and is still visible at
the start of the second run: here x was declared 0, set to 5 during the
first run, and still reads 5 after stop and a fresh start. -/
theorem C3_counterexample :
    (let sc : Scenario Unit :=
       ⟨"s", "n", "1", [⟨"s1", "Stage", true, [], [], [], []⟩], [],
         [("x", JSVal.num 0)], defaultConfig, [], [], [], []⟩
     let ev : Unit → MgrState Unit → Bool := fun _ _ => true
     let m1 := (runMgr ev 0 9 (.loadTask sc) MgrState.init).1
     let m2 := (runMgr ev 0 9 .startTask m1).1
     let m3 := ((mgrSetState m2 "x" (JSVal.num 5)).getD (m2, [])).1
     let m4 := (runMgr ev 0 9 (.stopTask false) m3).1
     let m5 := (runMgr ev 0 9 .startTask m4).1
     getState m5.state (some "x") = JSVal.num 5 ∧
       alistLookup sc.vars "x" = some (JSVal.num 0) ∧
       m5.isRunning = true ∧ JSVal.num 5 ≠ JSVal.num 0) := by
  refine ⟨rfl, rfl, rfl, ?_⟩
  intro h
  injection h with h5
  exact absurd h5 (by decide)


theorem seq_nil_fst {Cond : Type} (evalA : Cond → MgrState Cond → Bool)
    (now : Nat) : ∀ (f : Nat) (m : MgrState Cond),
    (runMgr evalA now f (.seq ([] : List (SAction Cond))) m).1 = m := by
  intro f m
  cases f <;> rfl

theorem runMgr_start_unfold {Cond : Type}
    (evalA : Cond → MgrState Cond → Bool) (now : Nat) (f : Nat)
    (m : MgrState Cond) (sc : Scenario Cond) (hsc : m.scenario = some sc)
    (hrun : m.isRunning = false) :
    runMgr evalA now (f + 1) .startTask m =
      (let e2 := engineStart (registerDefs sc.globalTriggers
        (TriggerEngine.init m.currentStageId))
       let m1 := { m with
         triggerEngine := some e2
         isRunning := true
         isPaused := false
         startTime := some now
         completedStages := []
         hintsUsed := 0 }
       let p := runMgr evalA now f (.seq sc.onStart) m1
       let q := match sc.stages.find? (fun s => s.isInitialStage) with
         | some s0 => runMgr evalA now f (.enterTask s0.id) p.1
         | none => (p.1, ([] : List (MgrEv Cond)))
       (q.1, p.2 ++ [MgrEv.emit "scenario:started"] ++ q.2)) := by
  conv_lhs => unfold runMgr
  rw [hsc, hrun]
  rfl

theorem runMgr_enter_unfold {Cond : Type}
    (evalA : Cond → MgrState Cond → Bool) (now : Nat) (f : Nat)
    (m : MgrState Cond) (sc : Scenario Cond) (sid : String)
    (hsc : m.scenario = some sc) :
    runMgr evalA now (f + 1) (.enterTask sid) m =
      (match sc.stages.find? (fun s => s.id == sid) with
       | none => (m, [])
       | some stage =>
           let p := match m.currentStageId with
             | some cs => runMgr evalA now f (.exitTask cs) m
             | none => (m, ([] : List (MgrEv Cond)))
           let m2 := { p.1 with
             currentStageId := some sid
             stageStartTime := some now }
           let eng := m2.triggerEngine.map
             (fun e => registerDefs
               (stage.triggers.map (fun t => { t with stageId := some sid }))
               { e with currentStageId := some sid })
           let m3 := { m2 with triggerEngine := eng }
           let q := runMgr evalA now f (.seq stage.onEnter) m3
           ({ q.1 with
               hintTimer := setupHint sc.config stage q.1.hintsUsed },
             p.2 ++ q.2 ++ [MgrEv.emit "scenario:stage:entered"])) := by
  conv_lhs => unfold runMgr
  rw [hsc]

theorem runMgr_start_fields {Cond : Type}
    (evalA : Cond → MgrState Cond → Bool) (now : Nat) (f : Nat)
    (m : MgrState Cond) (sc : Scenario Cond)
    (hsc : m.scenario = some sc) (hrun : m.isRunning = false)
    (hcs : m.currentStageId = none) (hstart : sc.onStart = [])
    (henter : ∀ st ∈ sc.stages, st.onEnter = []) :
    (let m2 := (runMgr evalA now (f + 2) .startTask m).1
     m2.state = m.state ∧ m2.isRunning = true ∧ m2.completedStages = [] ∧
       m2.hintsUsed = 0 ∧
       ∃ e, m2.triggerEngine = some e ∧ e.firedTriggers = [] ∧
         e.eventHistory = [] ∧ e.eventCounts = [] ∧
         e.debounceTimers = []) := by
  dsimp only
  have h2 : (f : Nat) + 2 = (f + 1) + 1 := rfl
  rw [h2, runMgr_start_unfold evalA now (f + 1) m sc hsc hrun, hstart]
  dsimp only
  rw [seq_nil_fst]
  have hbk2 : bk (engineStart (registerDefs sc.globalTriggers
      (TriggerEngine.init m.currentStageId :
        EngineState Cond (SAction Cond) JSVal))) = ([], [], [], []) := by
    rw [bk_engineStart, bk_registerDefs]
    rfl
  cases hfind : sc.stages.find? (fun s => s.isInitialStage) with
  | none =>
      dsimp only
      exact ⟨rfl, rfl, rfl, rfl,
        engineStart (registerDefs sc.globalTriggers
          (TriggerEngine.init m.currentStageId)), rfl,
        congrArg (fun x => x.1) hbk2,
        congrArg (fun x => x.2.1) hbk2,
        congrArg (fun x => x.2.2.1) hbk2,
        congrArg (fun x => x.2.2.2) hbk2⟩
  | some s0 =>
      dsimp only
      have hs0mem : s0 ∈ sc.stages := List.mem_of_find?_eq_some hfind
      cases hfid : sc.stages.find? (fun s => s.id == s0.id) with
      | none =>
          exfalso
          have := List.find?_eq_none.mp hfid s0 hs0mem
          simp at this
      | some stage =>
          have hoe : stage.onEnter = [] :=
            henter stage (List.mem_of_find?_eq_some hfid)
          set M1 : MgrState Cond := { m with
            triggerEngine := some (engineStart (registerDefs
              sc.globalTriggers (TriggerEngine.init m.currentStageId)))
            isRunning := true
            isPaused := false
            startTime := some now
            completedStages := []
            hintsUsed := 0 } with hM1
          have hM1sc : M1.scenario = some sc := by rw [hM1]; exact hsc
          have hM1cs : M1.currentStageId = none := by rw [hM1]; exact hcs
          rw [runMgr_enter_unfold evalA now f M1 sc s0.id hM1sc, hfid]
          dsimp only
          rw [hM1cs]
          dsimp only
          rw [hoe, seq_nil_fst]
          refine ⟨rfl, rfl, rfl, rfl, ?_⟩
          have hbk : bk (registerDefs
              (stage.triggers.map
                (fun t => { t with stageId := some s0.id }))
              { engineStart (registerDefs sc.globalTriggers
                  (TriggerEngine.init m.currentStageId :
                    EngineState Cond (SAction Cond) JSVal)) with
                currentStageId := some s0.id }) = ([], [], [], []) := by
            rw [bk_registerDefs]
            show bk (engineStart (registerDefs sc.globalTriggers
              (TriggerEngine.init m.currentStageId :
                EngineState Cond (SAction Cond) JSVal))) =
              ([], [], [], [])
            rw [bk_engineStart, bk_registerDefs]
            rfl
          refine ⟨registerDefs
            (stage.triggers.map (fun t => { t with stageId := some s0.id }))
            { engineStart (registerDefs sc.globalTriggers
                (TriggerEngine.init m.currentStageId)) with
              currentStageId := some s0.id }, ?_, ?_, ?_, ?_, ?_⟩
          · rfl
          · exact congrArg (fun x => x.1) hbk
          · exact congrArg (fun x => x.2.1) hbk
          · exact congrArg (fun x => x.2.2.1) hbk
          · exact congrArg (fun x => x.2.2.2) hbk


/-- C3 (amended): between stopScenario(false) and a new startScenario on the
same loaded scenario, the engine-side runtime state is fresh — the new
TriggerEngine starts with empty fired-once set, event history, per-event
counters and debounce timers — and the orchestrator's completed-stage set
and hints-used count are reset to empty/zero; but the variable map is NOT
restored to the definition's declared initial values: startScenario never
touches this.state (only loadScenario seeds it, ScenarioManager.js:214), so
values written during the previous run carry over into the second run.
Stated for scenarios whose onStart and onEnter hooks are empty (the fuel
interpreter then needs no action recursion). -/
theorem C3_runtime_reset {Cond : Type} (evalA : Cond → MgrState Cond → Bool)
    (now1 now2 : Nat) (m : MgrState Cond) (sc : Scenario Cond) (f1 f2 : Nat)
    (hsc : m.scenario = some sc) (hrun : m.isRunning = true)
    (hstart : sc.onStart = [])
    (henter : ∀ st ∈ sc.stages, st.onEnter = []) :
    (let m1 := (runMgr evalA now1 (f1 + 1) (.stopTask false) m).1
     let m2 := (runMgr evalA now2 (f2 + 2) .startTask m1).1
     m2.state = m.state ∧ m2.isRunning = true ∧ m2.completedStages = [] ∧
       m2.hintsUsed = 0 ∧
       ∃ e, m2.triggerEngine = some e ∧ e.firedTriggers = [] ∧
         e.eventHistory = [] ∧ e.eventCounts = [] ∧
         e.debounceTimers = []) := by
  dsimp only
  rw [runMgr_stop_plain evalA now1 f1 m hrun]
  exact runMgr_start_fields evalA now2 f2
    { m with triggerEngine := none, isRunning := false, isPaused := false, currentStageId := none }
    sc hsc rfl rfl hstart henter

/-- Concrete instantiation of C3_runtime_reset: a loaded and started
scenario, stopped and started again, keeps its variable map while the
run counters and the engine bookkeeping are fresh. -/
theorem C3_runtime_reset_witness :
    (let sc : Scenario Unit :=
       ⟨"s", "n", "1", [⟨"s1", "Stage", true, [], [], [], []⟩], [],
         [("x", JSVal.num 0)], defaultConfig, [], [], [], []⟩
     let ev : Unit → MgrState Unit → Bool := fun _ _ => true
     let m2 := (runMgr ev 0 9 .startTask
       (runMgr ev 0 9 (.loadTask sc) MgrState.init).1).1
     let mA := (runMgr ev 0 (3 + 1) (.stopTask false) m2).1
     let mB := (runMgr ev 0 (3 + 2) .startTask mA).1
     mB.state = m2.state ∧ mB.isRunning = true ∧ mB.completedStages = [] ∧
       mB.hintsUsed = 0 ∧
       ∃ e, mB.triggerEngine = some e ∧ e.firedTriggers = [] ∧
         e.eventHistory = [] ∧ e.eventCounts = [] ∧
         e.debounceTimers = []) := by
  exact C3_runtime_reset (fun _ _ => true) 0 0 _
    ⟨"s", "n", "1", [⟨"s1", "Stage", true, [], [], [], []⟩], [],
      [("x", JSVal.num 0)], defaultConfig, [], [], [], []⟩ 3 3 rfl rfl rfl
    (by intro st hst; simp at hst; subst hst; rfl)


theorem normStagesAux_cons {Cond : Type} (fresh : Nat → Nat → String)
    (i : Nat) (r : RawStage Cond) (rest : List (RawStage Cond)) :
    normStagesAux fresh i (r :: rest) =
      normalizeStage (fresh i) i r :: normStagesAux fresh (i + 1) rest := rfl

theorem normStagesAux_all_not {Cond : Type} (fresh : Nat → Nat → String) :
    ∀ (raw : List (RawStage Cond)) (i : Nat),
      (∀ r ∈ raw, r.isInitialStage = false) →
      (normStagesAux fresh i raw).all (fun s => !s.isInitialStage) = true := by
  intro raw
  induction raw with
  | nil => intro i _; rfl
  | cons r rest ih =>
      intro i hall
      rw [normStagesAux_cons, List.all_cons]
      have hr : (normalizeStage (fresh i) i r).isInitialStage = false :=
        hall r (by simp)
      rw [hr]
      exact ih (i + 1) (fun x hx => hall x (by simp [hx]))

theorem normStagesAux_exists_flag {Cond : Type} (fresh : Nat → Nat → String) :
    ∀ (raw : List (RawStage Cond)) (i : Nat) (r : RawStage Cond),
      r ∈ raw → r.isInitialStage = true →
      ∃ s ∈ normStagesAux fresh i raw, s.isInitialStage = true := by
  intro raw
  induction raw with
  | nil => intro i r hr; simp at hr
  | cons a rest ih =>
      intro i r hr hflag
      rcases List.mem_cons.mp hr with h | h
      · subst h
        exact ⟨normalizeStage (fresh i) i r, by simp [normStagesAux_cons],
          hflag⟩
      · rcases ih (i + 1) r h hflag with ⟨s, hs, hsf⟩
        exact ⟨s, by simp [normStagesAux_cons, hs], hsf⟩

theorem normStagesAux_find_first {Cond : Type} (fresh : Nat → Nat → String) :
    ∀ (u : List (RawStage Cond)) (r : RawStage Cond)
      (w : List (RawStage Cond)) (i : Nat),
      (∀ x ∈ u, x.isInitialStage = false) → r.isInitialStage = true →
      (normStagesAux fresh i (u ++ r :: w)).find?
          (fun s => s.isInitialStage) =
        some (normalizeStage (fresh (i + u.length)) (i + u.length) r) := by
  intro u
  induction u with
  | nil =>
      intro r w i _ hr
      rw [List.nil_append, normStagesAux_cons]
      rw [List.find?_cons_of_pos]
      · simp
      · show (normalizeStage (fresh i) i r).isInitialStage = true
        exact hr
  | cons x u' ih =>
      intro r w i hu hr
      rw [List.cons_append, normStagesAux_cons]
      rw [List.find?_cons_of_neg]
      · have harith : (i + 1) + u'.length = i + (x :: u').length := by
          simp [List.length_cons]
          omega
        rw [ih r w (i + 1) (fun y hy => hu y (by simp [hy])) hr, harith]
      · show ¬(normalizeStage (fresh i) i x).isInitialStage = true
        have : (normalizeStage (fresh i) i x).isInitialStage = false :=
          hu x (by simp)
        simp [this]

theorem normalizeStages_no_flag {Cond : Type} (fresh : Nat → Nat → String)
    (r0 : RawStage Cond) (rest : List (RawStage Cond))
    (hall : ∀ r ∈ r0 :: rest, r.isInitialStage = false) :
    normalizeStages fresh (r0 :: rest) =
      { normalizeStage (fresh 0) 0 r0 with isInitialStage := true } ::
        normStagesAux fresh 1 rest := by
  unfold normalizeStages
  have hss := normStagesAux_all_not fresh (r0 :: rest) 0 hall
  rw [normStagesAux_cons] at hss ⊢
  dsimp only
  rw [hss]
  rfl

theorem normalizeStages_flagged {Cond : Type} (fresh : Nat → Nat → String)
    (raw : List (RawStage Cond)) (r : RawStage Cond) (hr : r ∈ raw)
    (hflag : r.isInitialStage = true) :
    normalizeStages fresh raw = normStagesAux fresh 0 raw := by
  unfold normalizeStages
  rcases normStagesAux_exists_flag fresh raw 0 r hr hflag with ⟨s, hs, hsf⟩
  have hall : (normStagesAux fresh 0 raw).all
      (fun s => !s.isInitialStage) = false := by
    rw [List.all_eq_false]
    exact ⟨s, hs, by simp [hsf]⟩
  dsimp only
  rw [hall]
  rfl

theorem first_flag_split {Cond : Type} :
    ∀ (raw : List (RawStage Cond)),
      (∃ r ∈ raw, r.isInitialStage = true) →
      ∃ u r w, raw = u ++ r :: w ∧ (∀ x ∈ u, x.isInitialStage = false) ∧
        r.isInitialStage = true := by
  intro raw
  induction raw with
  | nil => intro h; simp at h
  | cons a rest ih =>
      intro h
      cases ha : a.isInitialStage with
      | true => exact ⟨[], a, rest, rfl, by simp, ha⟩
      | false =>
          have hrest : ∃ r ∈ rest, r.isInitialStage = true := by
            rcases h with ⟨r, hr, hrf⟩
            rcases List.mem_cons.mp hr with h1 | h1
            · subst h1; rw [ha] at hrf; exact absurd hrf (by simp)
            · exact ⟨r, h1, hrf⟩
          rcases ih hrest with ⟨u, r, w, hsplit, hu, hrf⟩
          exact ⟨a :: u, r, w, by rw [hsplit, List.cons_append],
            fun x hx => by
              rcases List.mem_cons.mp hx with h1 | h1
              · subst h1; exact ha
              · exact hu x h1, hrf⟩


theorem seq_nil_eq {Cond : Type} (evalA : Cond → MgrState Cond → Bool)
    (now : Nat) (f : Nat) (m : MgrState Cond) :
    runMgr evalA now (f + 1) (.seq ([] : List (SAction Cond))) m =
      (m, []) := rfl

theorem runMgr_start_enters {Cond : Type}
    (evalA : Cond → MgrState Cond → Bool) (now : Nat) (f : Nat)
    (m : MgrState Cond) (sc : Scenario Cond) (s : Stage Cond)
    (hsc : m.scenario = some sc) (hrun : m.isRunning = false)
    (hcs : m.currentStageId = none) (hstart : sc.onStart = [])
    (henter : ∀ st ∈ sc.stages, st.onEnter = [])
    (hfind : sc.stages.find? (fun st => st.isInitialStage) = some s) :
    (runMgr evalA now (f + 3) .startTask m).1.currentStageId = some s.id ∧
    (runMgr evalA now (f + 3) .startTask m).2 =
      [MgrEv.emit "scenario:started",
        MgrEv.emit "scenario:stage:entered"] := by
  have h3 : (f : Nat) + 3 = (f + 2) + 1 := rfl
  rw [h3, runMgr_start_unfold evalA now (f + 2) m sc hsc hrun, hstart]
  dsimp only
  rw [seq_nil_eq evalA now (f + 1), hfind]
  dsimp only
  set M1 : MgrState Cond := { m with
    triggerEngine := some (engineStart (registerDefs
      sc.globalTriggers (TriggerEngine.init m.currentStageId)))
    isRunning := true
    isPaused := false
    startTime := some now
    completedStages := []
    hintsUsed := 0 } with hM1
  have hM1sc : M1.scenario = some sc := by rw [hM1]; exact hsc
  have hM1cs : M1.currentStageId = none := by rw [hM1]; exact hcs
  rw [runMgr_enter_unfold evalA now (f + 1) M1 sc s.id hM1sc]
  have hsmem : s ∈ sc.stages := List.mem_of_find?_eq_some hfind
  cases hfid : sc.stages.find? (fun x => x.id == s.id) with
  | none =>
      exfalso
      have := List.find?_eq_none.mp hfid s hsmem
      simp at this
  | some stage =>
      dsimp only
      rw [hM1cs]
      dsimp only
      have hoe := henter stage (List.mem_of_find?_eq_some hfid)
      rw [hoe, seq_nil_eq evalA now f]
      exact ⟨rfl, rfl⟩

/-- C8: for every loaded scenario definition with a non-empty stages array,
start() resolves and enters exactly one uniquely determined initial stage:
the loader's normalize pass flags the first element when no stage carries
the explicit flag (SemanticEvents.js normalize), the resolution
stages.find(s => s.isInitialStage) (ScenarioManager.js:284) returns the
first flagged stage — the flagged one when the definition flags exactly
one, or the (now-flagged) first element when none was flagged — and
startScenario enters exactly that stage, emitting a single STAGE_ENTERED
notification.  The entering conjunct is stated for scenarios with empty
onStart/onEnter hooks. -/
theorem C8_initial_stage {Cond : Type} (fresh : Nat → Nat → String)
    (evalA : Cond → MgrState Cond → Bool) (now : Nat)
    (raw : List (RawStage Cond)) (hne : raw ≠ []) :
    (∃ s, (normalizeStages fresh raw).find?
        (fun st => st.isInitialStage) = some s) ∧
    (∀ r0 rest, raw = r0 :: rest →
        (∀ r ∈ raw, r.isInitialStage = false) →
        (normalizeStages fresh raw).find? (fun st => st.isInitialStage) =
          some { normalizeStage (fresh 0) 0 r0 with
            isInitialStage := true }) ∧
    (∀ u (r : RawStage Cond) w, raw = u ++ r :: w →
        (∀ x ∈ u, x.isInitialStage = false) → r.isInitialStage = true →
        (normalizeStages fresh raw).find? (fun st => st.isInitialStage) =
          some (normalizeStage (fresh u.length) u.length r)) ∧
    (∀ (m : MgrState Cond) (sc : Scenario Cond) (f : Nat) (s : Stage Cond),
        m.scenario = some sc → m.isRunning = false →
        m.currentStageId = none →
        sc.stages = normalizeStages fresh raw → sc.onStart = [] →
        (∀ st ∈ sc.stages, st.onEnter = []) →
        (normalizeStages fresh raw).find?
          (fun st => st.isInitialStage) = some s →
        (runMgr evalA now (f + 3) .startTask m).1.currentStageId =
            some s.id ∧
          (runMgr evalA now (f + 3) .startTask m).2 =
            [MgrEv.emit "scenario:started",
              MgrEv.emit "scenario:stage:entered"]) := by
  refine ⟨?_, ?_, ?_, ?_⟩
  · by_cases hall : ∀ r ∈ raw, r.isInitialStage = false
    · cases raw with
      | nil => exact absurd rfl hne
      | cons r0 rest =>
          refine ⟨{ normalizeStage (fresh 0) 0 r0 with
            isInitialStage := true }, ?_⟩
          rw [normalizeStages_no_flag fresh r0 rest hall]
          exact List.find?_cons_of_pos _ rfl
    · have hex : ∃ r ∈ raw, r.isInitialStage = true := by
        push_neg at hall
        rcases hall with ⟨r, hr, hne'⟩
        exact ⟨r, hr, by simpa using hne'⟩
      rcases first_flag_split raw hex with ⟨u, r, w, hsplit, hu, hr⟩
      refine ⟨normalizeStage (fresh u.length) u.length r, ?_⟩
      rw [normalizeStages_flagged fresh raw r (by rw [hsplit]; simp) hr,
        hsplit]
      simpa using normStagesAux_find_first fresh u r w 0 hu hr
  · intro r0 rest hraw hall
    subst hraw
    rw [normalizeStages_no_flag fresh r0 rest hall]
    exact List.find?_cons_of_pos _ rfl
  · intro u r w hraw hu hr
    have hrmem : r ∈ raw := by rw [hraw]; simp
    rw [normalizeStages_flagged fresh raw r hrmem hr, hraw]
    simpa using normStagesAux_find_first fresh u r w 0 hu hr
  · intro m sc f s hsc hrun hcs hstages hstart henter hfind
    have hfind' : sc.stages.find? (fun st => st.isInitialStage) = some s :=
      by rw [hstages]; exact hfind
    exact runMgr_start_enters evalA now f m sc s hsc hrun hcs hstart henter
      hfind'

/-- Concrete instantiation of C8_initial_stage: with stages [a (unflagged),
b (flagged)], the resolved initial stage is b, and start enters b emitting
one STAGE_ENTERED. -/
theorem C8_initial_stage_witness :
    (∃ s, (normalizeStages (fun _ _ => "g")
        ([⟨some "a", none, false, [], [], none, []⟩,
          ⟨some "b", none, true, [], [], none, []⟩] :
          List (RawStage Unit))).find?
        (fun st => st.isInitialStage) = some s) ∧
    ((normalizeStages (fun _ _ => "g")
        ([⟨some "a", none, false, [], [], none, []⟩,
          ⟨some "b", none, true, [], [], none, []⟩] :
          List (RawStage Unit))).find? (fun st => st.isInitialStage) =
      some (normalizeStage ((fun (_ _ : Nat) => "g") 1) 1
        ⟨some "b", none, true, [], [], none, []⟩)) ∧
    ((runMgr (fun (_ : Unit) (_ : MgrState Unit) => true) 0 (0 + 3)
        .startTask
        { MgrState.init with scenario := some ⟨"s", "n", "1",
          normalizeStages (fun _ _ => "g")
            [⟨some "a", none, false, [], [], none, []⟩,
              ⟨some "b", none, true, [], [], none, []⟩],
          [], [], defaultConfig, [], [], [], []⟩ }).1.currentStageId =
      some (normalizeStage ((fun (_ _ : Nat) => "g") 1) 1
        (⟨some "b", none, true, [], [], none, []⟩ :
          RawStage Unit)).id) := by
  refine ⟨(C8_initial_stage (fun _ _ => "g")
      (fun (_ : Unit) (_ : MgrState Unit) => true) 0 _ (by simp)).1,
    (C8_initial_stage (fun _ _ => "g")
      (fun (_ : Unit) (_ : MgrState Unit) => true) 0 _ (by simp)).2.2.1
      [⟨some "a", none, false, [], [], none, []⟩]
      ⟨some "b", none, true, [], [], none, []⟩ [] rfl
      (by intro x hx; simp at hx; subst hx; rfl) rfl, ?_⟩
  exact ((C8_initial_stage (fun _ _ => "g")
      (fun (_ : Unit) (_ : MgrState Unit) => true) 0
      ([⟨some "a", none, false, [], [], none, []⟩,
        ⟨some "b", none, true, [], [], none, []⟩] :
        List (RawStage Unit)) (by simp)).2.2.2
    { MgrState.init with scenario := some ⟨"s", "n", "1",
        normalizeStages (fun _ _ => "g")
          [⟨some "a", none, false, [], [], none, []⟩,
            ⟨some "b", none, true, [], [], none, []⟩],
        [], [], defaultConfig, [], [], [], []⟩ }
    ⟨"s", "n", "1",
      normalizeStages (fun _ _ => "g")
        [⟨some "a", none, false, [], [], none, []⟩,
          ⟨some "b", none, true, [], [], none, []⟩],
      [], [], defaultConfig, [], [], [], []⟩ 0
    (normalizeStage ((fun (_ _ : Nat) => "g") 1) 1
      ⟨some "b", none, true, [], [], none, []⟩)
    rfl rfl rfl rfl rfl
    (by intro st hst; fin_cases hst <;> rfl)
    rfl).1

end IlluminatOS
